import Mathlib

/-!
# Verification of the `RLTrainer` core (rllib/core/rl_trainer/rl_trainer.py)

A shallow embedding of the trainer's parameter/optimizer registry, its module
lifecycle operations (`build`, `add_module`, `remove_module`), the update
pipeline (`update` / `_update`), loss aggregation (`compute_loss`), result
compilation (`compile_results`) and state snapshot/restore
(`get_state` / `set_state`).

Python dictionaries are modelled as association lists whose keys are unique
(Python dict keys are unique by construction); `d[k] = v` replaces the entry
in place when the key is present and appends otherwise, `del d[k]` removes
the entry with that key, and `d[k].append(x)` mutates the stored value in
place.  Opaque module / parameter / optimizer identities become `Nat`s; the
backend hook `get_param_ref` becomes an explicit function argument `pref`.
Python exceptions are modelled by `Except Err`.
-/

set_option maxHeartbeats 1000000
set_option linter.unusedSectionVars false

namespace RLTrainerV

/-- Module identifiers (`ModuleID` in the source). -/
abbrev ModuleID := String

/-- Opaque parameter handles (`ParamType`): the core only uses their identity. -/
abbrev Param := Nat

/-- Hashable parameter references (`ParamRef`). -/
abbrev ParamRef := Nat

/-- Opaque optimizer identities (used as dict keys in the source). -/
abbrev OptId := Nat

/-- The Python exceptions the trainer core can raise. -/
inductive Err where
  | notBuilt
  | notImplemented
  | attributeError
  | keyError
  | valueError
deriving DecidableEq

section Dict

variable {κ ν : Type} [DecidableEq κ]

/-- Python `d[k]` / `d.get(k)`: look up the (unique) entry with key `k`. -/
def dictGet (k : κ) : List (κ × ν) → Option ν
  | [] => none
  | e :: rest => if e.1 = k then some e.2 else dictGet k rest

/-- Python `d[k] = v`: replace the entry in place if `k` is present,
append `(k, v)` at the end otherwise. -/
def dictSet (k : κ) (v : ν) : List (κ × ν) → List (κ × ν)
  | [] => [(k, v)]
  | e :: rest => if e.1 = k then (k, v) :: rest else e :: dictSet k v rest

/-- Python `del d[k]`: drop the entry with key `k` (keys are unique, so
dropping every entry with that key is the same as deleting the one). -/
def dictErase (k : κ) : List (κ × ν) → List (κ × ν)
  | [] => []
  | e :: rest => if e.1 = k then dictErase k rest else e :: dictErase k rest

/-- Python `d[k].append(...)`-style in-place mutation of the stored value. -/
def dictModify (k : κ) (f : ν → ν) (m : List (κ × ν)) : List (κ × ν) :=
  m.map (fun e => if e.1 = k then (e.1, f e.2) else e)

/-- The keys of the dict are pairwise distinct (always true of Python dicts). -/
abbrev KeysND (m : List (κ × ν)) : Prop := (m.map Prod.fst).Nodup

/-- Deleting a list of keys one after the other. -/
def eraseKeys (m : List (κ × ν)) (ks : List κ) : List (κ × ν) :=
  ks.foldl (fun acc k => dictErase k acc) m

end Dict

/-! ## The parameter/optimizer registry

`Registry` models the three dictionaries set up in `RLTrainer.__init__`:
`_optim_to_param`, `_param_to_optim` and `_params`. -/

/-- The three registry dictionaries of the trainer. -/
structure Registry where
  optimToParam : List (OptId × List ParamRef)
  paramToOptim : List (ParamRef × OptId)
  params : List (ParamRef × Param)
deriving DecidableEq

/-- The empty registry (`__init__`). -/
def Registry.empty : Registry := ⟨[], [], []⟩

/-- The body of the registration loop shared verbatim by `build`
(lines 517-523) and `add_module` (lines 452-458):

```
for param in param_seq:
    param_ref = self.get_param_ref(param)
    self._optim_to_param[optimizer].append(param_ref)
    self._params[param_ref] = param
    self._param_to_optim[param_ref] = optimizer
```
-/
def registerLoop (pref : Param → ParamRef) (o : OptId) :
    List Param → Registry → Registry
  | [], reg => reg
  | p :: rest, reg =>
      let r := pref p
      registerLoop pref o rest
        { optimToParam := dictModify o (fun l => l ++ [r]) reg.optimToParam
          params := dictSet r p reg.params
          paramToOptim := dictSet r o reg.paramToOptim }

/-- One iteration of the outer loop `for param_seq, optimizer in ...`:
`self._optim_to_param[optimizer] = []` followed by the inner loop. -/
def registerPair (pref : Param → ParamRef) (reg : Registry)
    (pair : List Param × OptId) : Registry :=
  registerLoop pref pair.2 pair.1
    { reg with optimToParam := dictSet pair.2 [] reg.optimToParam }

/-- The full registration loop over the `(param_seq, optimizer)` pairs
returned by `configure_optimizers` (in `build`) or `set_optimizer_fn`
(in `add_module`). -/
def registerPairs (pref : Param → ParamRef) (reg : Registry)
    (pairs : List (List Param × OptId)) : Registry :=
  pairs.foldl (registerPair pref) reg

/-- The removal loop of `remove_module` (lines 472-481):

```
for param in parameters:
    param_ref = self.get_param_ref(param)
    if param_ref in self._params:
        del self._params[param_ref]
    if param_ref in self._param_to_optim:
        optimizer = self._param_to_optim[param_ref]
        if optimizer in self._optim_to_param:
            del self._optim_to_param[optimizer]
        del self._param_to_optim[param_ref]
```
-/
def unregisterLoop (pref : Param → ParamRef) :
    List Param → Registry → Registry
  | [], reg => reg
  | p :: rest, reg =>
      let r := pref p
      let reg1 :=
        if (dictGet r reg.params).isSome then
          { reg with params := dictErase r reg.params }
        else reg
      let reg2 :=
        match dictGet r reg1.paramToOptim with
        | some o =>
            let reg' :=
              if (dictGet o reg1.optimToParam).isSome then
                { reg1 with optimToParam := dictErase o reg1.optimToParam }
              else reg1
            { reg' with paramToOptim := dictErase r reg'.paramToOptim }
        | none => reg1
      unregisterLoop pref rest reg2

/-! ## Module lifecycle on a built trainer

For the registry claims the trainer is modelled after a successful `build()`:
a module container (module id → the module's parameters, i.e. what the
abstract `get_parameters` hook returns for it) together with the registry. -/

/-- A built trainer, as seen by the registry claims: the module container
(each module represented by its `get_parameters` output) and the registry. -/
structure TrainerReg where
  modules : List (ModuleID × List Param)
  reg : Registry
deriving DecidableEq

/-- `build()`: construct the module container and register every pair
returned by `configure_optimizers` into the fresh registry (lines 510-523). -/
def buildT (pref : Param → ParamRef) (modules : List (ModuleID × List Param))
    (pairs : List (List Param × OptId)) : TrainerReg :=
  { modules := modules, reg := registerPairs pref Registry.empty pairs }

/-- One mutating lifecycle call on a built trainer.  For `add`, `ps` is the
new module's parameter list (`get_parameters`) and `pairs` is what
`set_optimizer_fn` returns for it. -/
inductive Op where
  | add (mid : ModuleID) (ps : List Param) (pairs : List (List Param × OptId))
  | remove (mid : ModuleID)
deriving DecidableEq

/-- `add_module` (lines 437-460) registers the pairs and then inserts the
module into the container; `remove_module` (lines 462-483) looks the module
up, runs the removal loop over its parameters, and drops it from the
container. -/
def applyOp (pref : Param → ParamRef) (t : TrainerReg) : Op → TrainerReg
  | Op.add mid ps pairs =>
      { modules := dictSet mid ps t.modules
        reg := registerPairs pref t.reg pairs }
  | Op.remove mid =>
      match dictGet mid t.modules with
      | some ps =>
          { modules := dictErase mid t.modules
            reg := unregisterLoop pref ps t.reg }
      | none => t

/-- The trainer states reached after each call of a sequence of lifecycle
operations. -/
def trajectory (pref : Param → ParamRef) (t : TrainerReg) :
    List Op → List TrainerReg
  | [] => []
  | op :: rest =>
      let t' := applyOp pref t op
      t' :: trajectory pref t' rest

/-- Bool-valued pairwise check on a list. -/
def pairwiseB {α : Type} (f : α → α → Bool) : List α → Bool
  | [] => true
  | a :: rest => rest.all (f a) && pairwiseB f rest

/-- The §3 registry-consistency invariant, decidably: the keys of each
dictionary are unique, every key of "reference → parameter" has an entry in
"reference → optimizer" whose optimizer's owned-reference list contains the
reference, and no reference is owned by two different optimizers. -/
def consistentB (reg : Registry) : Bool :=
  decide (KeysND reg.params) && decide (KeysND reg.paramToOptim)
  && decide (KeysND reg.optimToParam)
  && reg.params.all (fun e =>
      match dictGet e.1 reg.paramToOptim with
      | some o =>
          match dictGet o reg.optimToParam with
          | some l => decide (e.1 ∈ l)
          | none => false
      | none => false)
  && pairwiseB (fun a b => a.2.all (fun r => decide (r ∉ b.2))) reg.optimToParam

/-- Well-formedness of a built trainer: the consistency invariant plus the
structural facts that make it inductive under `add_module`/`remove_module`
(owned references point back at their optimizer, each optimizer's references
come from a single live module, distinct modules have disjoint reference
sets, and each module's references are distinct). -/
def wfB (pref : Param → ParamRef) (t : TrainerReg) : Bool :=
  decide (KeysND t.reg.params) && decide (KeysND t.reg.paramToOptim)
  && decide (KeysND t.reg.optimToParam) && decide (KeysND t.modules)
  && t.reg.optimToParam.all (fun ol =>
      ol.2.all (fun r => decide (dictGet r t.reg.paramToOptim = some ol.1)))
  && t.reg.paramToOptim.all (fun ro =>
      match dictGet ro.2 t.reg.optimToParam with
      | some l => decide (ro.1 ∈ l)
      | none => false)
  && t.reg.params.all (fun e => (dictGet e.1 t.reg.paramToOptim).isSome)
  && t.reg.optimToParam.all (fun ol =>
      ol.2.isEmpty
        || t.modules.any (fun me => ol.2.all (fun r => decide (r ∈ me.2.map pref))))
  && pairwiseB (fun a b =>
      (a.2.map pref).all (fun r => decide (r ∉ b.2.map pref))) t.modules
  && t.modules.all (fun me => decide ((me.2.map pref).Nodup))

/-- Propositional form of `wfB`. -/
structure WF (pref : Param → ParamRef) (t : TrainerReg) : Prop where
  ndParams : KeysND t.reg.params
  ndPto : KeysND t.reg.paramToOptim
  ndOtp : KeysND t.reg.optimToParam
  ndModules : KeysND t.modules
  backlink1 : ∀ o l, (o, l) ∈ t.reg.optimToParam → ∀ r ∈ l,
    dictGet r t.reg.paramToOptim = some o
  backlink2 : ∀ r o, (r, o) ∈ t.reg.paramToOptim → ∃ l,
    dictGet o t.reg.optimToParam = some l ∧ r ∈ l
  hasOwner : ∀ r p, (r, p) ∈ t.reg.params →
    (dictGet r t.reg.paramToOptim).isSome
  locality : ∀ o l, (o, l) ∈ t.reg.optimToParam →
    l = [] ∨ ∃ me ∈ t.modules, ∀ r ∈ l, r ∈ me.2.map pref
  modDisj : List.Pairwise
    (fun a b => ∀ r ∈ a.2.map pref, r ∉ b.2.map pref) t.modules
  refsNodup : ∀ me ∈ t.modules, (me.2.map pref).Nodup

/-- Side conditions under which one `add_module` call is benign: the new
module id is fresh, the new module's references are distinct and disjoint
from every live module's references, the supplied optimizers are distinct
and not yet tracked, and the registered references are distinct and all
belong to the new module. -/
def validAdd (pref : Param → ParamRef) (t : TrainerReg) (mid : ModuleID)
    (ps : List Param) (pairs : List (List Param × OptId)) : Bool :=
  (dictGet mid t.modules).isNone
  && decide ((ps.map pref).Nodup)
  && t.modules.all (fun me =>
      (ps.map pref).all (fun r => decide (r ∉ me.2.map pref)))
  && decide ((pairs.map Prod.snd).Nodup)
  && pairs.all (fun pr => (dictGet pr.2 t.reg.optimToParam).isNone)
  && decide ((pairs.map (fun pr => pr.1.map pref)).flatten.Nodup)
  && pairs.all (fun pr => (pr.1.map pref).all (fun r => decide (r ∈ ps.map pref)))

/-- Side condition of one lifecycle call: `add_module` must be a benign
addition; `remove_module` needs its module id live in the container. -/
def validOp (pref : Param → ParamRef) (t : TrainerReg) : Op → Bool
  | Op.add mid ps pairs => validAdd pref t mid ps pairs
  | Op.remove mid => (dictGet mid t.modules).isSome

/-- Every call of the sequence is valid in the state it is applied in. -/
def validSeq (pref : Param → ParamRef) (t : TrainerReg) : List Op → Bool
  | [] => true
  | op :: rest => validOp pref t op && validSeq pref (applyOp pref t op) rest

/-! ## The update pipeline (`update` / `_update`)

The framework hooks are state transformers over an abstract backend state
`σ`; the pipeline threads that state through the hooks in the order the
source calls them, which is what the temporal claims are about. -/

/-- One pipeline hook invocation, for recording traces. -/
inductive Ev where
  | convertBatch
  | forwardTrain
  | computeLoss
  | computeGradients
  | postprocessGradients
  | applyGradients
  | compileResults
  | doDistributedUpdate
deriving DecidableEq

/-- The batch-update hooks of the trainer (`_convert_batch_type`,
`forward_train` on the module, `compute_loss`, `compute_gradients`,
`postprocess_gradients`, `apply_gradients`, `compile_results`), each acting
on an abstract mutable backend state `σ`. -/
structure PipeHooks (σ μ β γ φ L G R : Type) where
  convertBatch : β → σ → γ × σ
  forwardTrain : μ → γ → σ → φ × σ
  computeLoss : φ → γ → σ → L × σ
  computeGradients : L → σ → G × σ
  postprocessGradients : G → σ → G × σ
  applyGradients : G → σ → σ
  compileResults : γ → φ → L → G → σ → R × σ

/-- `RLTrainer._update` (lines 300-309):

```
batch = self._convert_batch_type(batch)
fwd_out = self._module.forward_train(batch)
loss = self.compute_loss(fwd_out=fwd_out, batch=batch)
gradients = self.compute_gradients(loss)
postprocessed_gradients = self.postprocess_gradients(gradients)
self.apply_gradients(postprocessed_gradients)
return self.compile_results(batch, fwd_out, loss, postprocessed_gradients)
```
-/
def updateInner {σ μ β γ φ L G R : Type} (H : PipeHooks σ μ β γ φ L G R)
    (m : μ) (b : β) (s : σ) : R × σ :=
  let cs := H.convertBatch b s
  let fs := H.forwardTrain m cs.1 cs.2
  let ls := H.computeLoss fs.1 cs.1 fs.2
  let gs := H.computeGradients ls.1 ls.2
  let ps := H.postprocessGradients gs.1 gs.2
  let s6 := H.applyGradients ps.1 ps.2
  H.compileResults cs.1 fs.1 ls.1 ps.1 s6

/-- `RLTrainer.update` (lines 285-298): the build-called check, then
dispatch on `self.distributed` between the local `_update` pipeline and
`do_distributed_update`. -/
def updateModel {σ μ β γ φ L G R : Type} (H : PipeHooks σ μ β γ φ L G R)
    (module? : Option μ) (distributed : Bool)
    (doDist : β → σ → Except Err R × σ) (b : β) (s : σ) :
    Except Err R × σ :=
  match module? with
  | none => (Except.error Err.notBuilt, s)
  | some m =>
      if distributed = false then
        let rs := updateInner H m b s
        (Except.ok rs.1, rs.2)
      else
        doDist b s

/-- The unoverridden `do_distributed_update` (lines 525-534): raises
`NotImplementedError` as soon as it is invoked. -/
def doDistDefault {σ β R : Type} : β → σ → Except Err R × σ :=
  fun _ s => (Except.error Err.notImplemented, s)

/-- Instrumented hooks: each hook computes via a pure underlying function
and appends its invocation event to the trace (`σ := List Ev`). -/
def logHooks {μ β γ φ L G R : Type} (f₁ : β → γ) (f₂ : μ → γ → φ)
    (f₃ : φ → γ → L) (f₄ : L → G) (f₅ : G → G) (f₇ : γ → φ → L → G → R) :
    PipeHooks (List Ev) μ β γ φ L G R where
  convertBatch := fun b tr => (f₁ b, tr ++ [Ev.convertBatch])
  forwardTrain := fun m cb tr => (f₂ m cb, tr ++ [Ev.forwardTrain])
  computeLoss := fun fw cb tr => (f₃ fw cb, tr ++ [Ev.computeLoss])
  computeGradients := fun l tr => (f₄ l, tr ++ [Ev.computeGradients])
  postprocessGradients := fun g tr => (f₅ g, tr ++ [Ev.postprocessGradients])
  applyGradients := fun _ tr => tr ++ [Ev.applyGradients]
  compileResults := fun cb fw l g tr => (f₇ cb fw l g, tr ++ [Ev.compileResults])

/-- An instrumented (overridden) distributed-update hook: records its
invocation and returns `res`. -/
def doDistLog {β R : Type} (res : Except Err R) :
    β → List Ev → Except Err R × List Ev :=
  fun _ tr => (res, tr ++ [Ev.doDistributedUpdate])

/-! ## Loss aggregation (`compute_loss`, lines 158-209) -/

/-- A value of the dict returned by `compute_loss`: either a per-module
loss dict or the top-level running total (which is Python `None` when
`fwd_out` is empty). -/
inductive LossVal where
  | entry (m : List (String × Rat))
  | scalar (q : Option Rat)
deriving DecidableEq

/-- The loop of `compute_loss`: for each module id of `fwd_out`, compute
the per-module loss via `_compute_loss_per_module`, record it, read its
`"total_loss"` entry (`KeyError` if absent) and accumulate the running sum
(`None` before the first module). -/
def computeLossLoop {βB φ : Type}
    (hook : ModuleID → βB → φ → List (String × Rat)) (batch : ModuleID → βB) :
    List (ModuleID × φ) → Option Rat → List (String × LossVal) →
    Except Err (Option Rat × List (String × LossVal))
  | [], lossTotal, results => Except.ok (lossTotal, results)
  | e :: rest, lossTotal, results =>
      let moduleResults := hook e.1 (batch e.1) e.2
      match dictGet "total_loss" moduleResults with
      | none => Except.error Err.keyError
      | some loss =>
          let lossTotal' :=
            match lossTotal with
            | none => some loss
            | some x => some (x + loss)
          computeLossLoop hook batch rest lossTotal'
            (dictSet e.1 (LossVal.entry moduleResults) results)

/-- `RLTrainer.compute_loss`: run the loop over `fwd_out` and store the
accumulated total under the reserved key `"total_loss"`. -/
def computeLossModel {βB φ : Type}
    (hook : ModuleID → βB → φ → List (String × Rat)) (batch : ModuleID → βB)
    (fwdOut : List (ModuleID × φ)) : Except Err (List (String × LossVal)) :=
  match computeLossLoop hook batch fwdOut none [] with
  | Except.error er => Except.error er
  | Except.ok lr =>
      Except.ok (dictSet "total_loss" (LossVal.scalar lr.1) lr.2)

/-! ## Result compilation (`compile_results`, lines 252-283) -/

/-- `np.mean` on a flat list of exact numbers. -/
def npMean (l : List Rat) : Rat := l.sum / (l.length : Rat)

/-- A value of the dict returned by `compile_results`: the numeric-converted
losses or the scalar gradient statistic. -/
inductive CompVal (LN : Type) where
  | lossV (x : LN)
  | numV (q : Rat)
deriving DecidableEq

/-- `RLTrainer.compile_results`:

```
loss_numpy = convert_to_numpy(postprocessed_loss)
mean_grads = [np.mean(grad) for grad in convert_to_numpy(postprocessed_gradients.values())]
ret = {"loss": loss_numpy, "mean_gradient": np.mean(mean_grads)}
```

Gradients are the values of the postprocessed-gradients dict, each a flat
list of entries; `convertToNumpy` is the opaque numeric conversion. -/
def compileResultsModel {LT LN : Type} (convertToNumpy : LT → LN) (loss : LT)
    (postprocessedGradients : List (List Rat)) : List (String × CompVal LN) :=
  let lossNumpy := convertToNumpy loss
  let meanGrads := postprocessedGradients.map npMean
  [("loss", CompVal.lossV lossNumpy),
   ("mean_gradient", CompVal.numV (npMean meanGrads))]

/-- The spec's wording: the mean over the postprocessed gradients of each
gradient's per-parameter mean (a mean of means). -/
def meanOfPerParamMeans (grads : List (List Rat)) : Rat :=
  npMean (grads.map npMean)

/-- The spec's contrast case: the element-wise mean over all gradient
entries pooled together. -/
def elementwiseMeanAll (grads : List (List Rat)) : Rat :=
  npMean grads.flatten

/-! ## State snapshot/restore (`get_state` / `set_state`, lines 391-412) -/

/-- The trainer as seen by the state claims: just the module container
(`self._module`), `None` before `build()`.  The container's own state
representation is an opaque mapping. -/
structure StTrainer (M : Type) where
  module? : Option M
deriving DecidableEq

/-- `get_state`: build-called check, then
`return {"module_state": self._module.get_state()}`. -/
def getStateT {M V : Type} (getS : M → List (String × V)) (t : StTrainer M) :
    Except Err (List (String × List (String × V))) :=
  match t.module? with
  | none => Except.error Err.notBuilt
  | some m => Except.ok [("module_state", getS m)]

/-- `set_state`: build-called check, then
`self._module.set_state(state.get("module_state", {}))`. -/
def setStateT {M V : Type} (setS : M → List (String × V) → M) (t : StTrainer M)
    (state : List (String × List (String × V))) : Except Err (StTrainer M) :=
  match t.module? with
  | none => Except.error Err.notBuilt
  | some m =>
      Except.ok { module? := some (setS m ((dictGet "module_state" state).getD [])) }

/-! ## Lifecycle methods with the build-called precondition (for the
build-order claims) -/

/-- The trainer as seen by the build-order claims: the module container is
`None` until `build()` has run. -/
structure LifeTrainer where
  moduleC : Option (List (ModuleID × List Param))
  reg : Registry
deriving DecidableEq

/-- `add_module` with the build-called check (line 437) before the
registration loop and the container insertion. -/
def addModuleT (pref : Param → ParamRef) (t : LifeTrainer) (mid : ModuleID)
    (ps : List Param) (pairs : List (List Param × OptId)) :
    Except Err LifeTrainer :=
  match t.moduleC with
  | none => Except.error Err.notBuilt
  | some mods =>
      Except.ok { moduleC := some (dictSet mid ps mods)
                  reg := registerPairs pref t.reg pairs }

/-- `remove_module` with the build-called check (line 469); the container
lookup `self._module[module_id]` raises `KeyError` for an unknown id. -/
def removeModuleT (pref : Param → ParamRef) (t : LifeTrainer) (mid : ModuleID) :
    Except Err LifeTrainer :=
  match t.moduleC with
  | none => Except.error Err.notBuilt
  | some mods =>
      match dictGet mid mods with
      | none => Except.error Err.keyError
      | some ps =>
          Except.ok { moduleC := some (dictErase mid mods)
                      reg := unregisterLoop pref ps t.reg }

/-- The result-collecting loop of `additional_update` (lines 342-347);
an exception from the per-module hook propagates immediately. -/
def additionalUpdateLoop {ρ : Type} (perModule : ModuleID → Except Err ρ) :
    List (ModuleID × List Param) → List (ModuleID × ρ) →
    Except Err (List (ModuleID × ρ))
  | [], results => Except.ok results
  | e :: rest, results =>
      match perModule e.1 with
      | Except.error er => Except.error er
      | Except.ok r => additionalUpdateLoop perModule rest (dictSet e.1 r results)

/-- `additional_update` (lines 325-349).  There is NO build-called check:
the loop header `for module_id in self._module.keys()` dereferences
`self._module`, which is `None` before `build()`, raising `AttributeError`
rather than the "trainer not built" `ValueError`. -/
def additionalUpdateT {ρ : Type} (perModule : ModuleID → Except Err ρ)
    (t : LifeTrainer) : Except Err (List (ModuleID × ρ)) :=
  match t.moduleC with
  | none => Except.error Err.attributeError
  | some mods => additionalUpdateLoop perModule mods []

/-! ## Concrete instances used in counterexamples and witnesses -/

/-- The identity `get_param_ref` hook (the torch backend returns the
parameter itself as its reference). -/
def prefId : Param → ParamRef := id

/-- A successfully built trainer: one module `"A"` with parameter `1`,
owned by optimizer `10`. -/
def demoBuilt : TrainerReg := buildT prefId [("A", [1])] [([1], 10)]

/-- A successfully built trainer whose `configure_optimizers` returned a
single optimizer `10` owning the parameters of both modules. -/
def demoSharedOpt : TrainerReg :=
  buildT prefId [("A", [1]), ("B", [2])] [([1, 2], 10)]

/-- An unbuilt trainer (fresh from `__init__`). -/
def demoUnbuilt : LifeTrainer := { moduleC := none, reg := Registry.empty }

/-- A demo per-module loss hook: total loss 2 for module A, 3 otherwise. -/
def demoLossHook : ModuleID → Nat → Nat → List (String × Rat) :=
  fun mid _ _ => if mid = "A" then [("total_loss", 2)] else [("total_loss", 3)]

/-- A demo forward-pass output over modules A and B. -/
def demoFwdOut : List (ModuleID × Nat) := [("A", 0), ("B", 0)]

/-- A demo batch lookup. -/
def demoBatch : ModuleID → Nat := fun _ => 0

/-!
# Theorems

First the association-list lemmas, then the characterizations of the
register/unregister loops, then the invariant-preservation argument, and
finally one theorem per specification claim (with witnesses and
counterexamples).
-/

section DictLemmas

variable {κ ν : Type} [DecidableEq κ]

theorem dictGet_nil (k : κ) : dictGet k ([] : List (κ × ν)) = none := rfl

theorem dictGet_cons (k : κ) (e : κ × ν) (m : List (κ × ν)) :
    dictGet k (e :: m) = if e.1 = k then some e.2 else dictGet k m := rfl

theorem dictGet_append (k : κ) (m₁ m₂ : List (κ × ν)) :
    dictGet k (m₁ ++ m₂) =
      match dictGet k m₁ with
      | some v => some v
      | none => dictGet k m₂ := by
  induction m₁ with
  | nil => simp [dictGet]
  | cons e rest ih =>
      by_cases h : e.1 = k
      · simp [dictGet, h]
      · simp [dictGet, h, ih]

theorem dictGet_append_left {k : κ} {m₁ : List (κ × ν)} {v : ν}
    (m₂ : List (κ × ν)) (h : dictGet k m₁ = some v) :
    dictGet k (m₁ ++ m₂) = some v := by
  rw [dictGet_append, h]

theorem dictGet_append_right {k : κ} {m₁ : List (κ × ν)}
    (m₂ : List (κ × ν)) (h : dictGet k m₁ = none) :
    dictGet k (m₁ ++ m₂) = dictGet k m₂ := by
  rw [dictGet_append, h]

theorem dictGet_mem {k : κ} {v : ν} {m : List (κ × ν)}
    (h : dictGet k m = some v) : (k, v) ∈ m := by
  induction m with
  | nil => simp [dictGet] at h
  | cons e rest ih =>
      rw [dictGet_cons] at h
      by_cases he : e.1 = k
      · simp [he] at h
        have : e = (k, v) := by cases e; simp_all
        rw [← this]
        exact List.mem_cons_self _ _
      · simp [he] at h
        exact List.mem_cons_of_mem _ (ih h)

theorem mem_key_of_dictGet_some {k : κ} {v : ν} {m : List (κ × ν)}
    (h : dictGet k m = some v) : k ∈ m.map Prod.fst := by
  have := dictGet_mem h
  exact List.mem_map.2 ⟨(k, v), this, rfl⟩

theorem dictGet_eq_none_iff {k : κ} {m : List (κ × ν)} :
    dictGet k m = none ↔ k ∉ m.map Prod.fst := by
  induction m with
  | nil => simp [dictGet]
  | cons e rest ih =>
      rw [dictGet_cons]
      by_cases he : e.1 = k
      · simp [he]
      · simp [he, ih, Ne.symm he]

theorem dictGet_of_mem {k : κ} {v : ν} {m : List (κ × ν)}
    (hnd : KeysND m) (h : (k, v) ∈ m) : dictGet k m = some v := by
  induction m with
  | nil => simp at h
  | cons e rest ih =>
      rw [dictGet_cons]
      rcases List.mem_cons.1 h with he | hrest
      · subst he; simp
      · have hkey : e.1 ≠ k := by
          intro heq
          have : k ∈ rest.map Prod.fst :=
            List.mem_map.2 ⟨(k, v), hrest, rfl⟩
          have hnd' := hnd
          unfold KeysND at hnd'
          simp only [List.map_cons, List.nodup_cons] at hnd'
          exact hnd'.1 (heq ▸ this)
        have hnd' : KeysND rest := by
          unfold KeysND at hnd ⊢
          simp only [List.map_cons, List.nodup_cons] at hnd
          exact hnd.2
        simp [hkey, ih hnd' hrest]

theorem dictGet_dictSet_self (k : κ) (v : ν) (m : List (κ × ν)) :
    dictGet k (dictSet k v m) = some v := by
  induction m with
  | nil => simp [dictGet, dictSet]
  | cons e rest ih =>
      by_cases h : e.1 = k
      · simp [dictSet, dictGet, h]
      · simp [dictSet, dictGet, h, ih]

theorem dictGet_dictSet_ne {k k' : κ} (v : ν) (m : List (κ × ν)) (h : k ≠ k') :
    dictGet k' (dictSet k v m) = dictGet k' m := by
  induction m with
  | nil => simp [dictGet, dictSet, h]
  | cons e rest ih =>
      by_cases he : e.1 = k
      · simp [dictSet, dictGet, he, h]
      · simp [dictSet, dictGet, he, ih]

theorem dictSet_fresh {k : κ} (v : ν) {m : List (κ × ν)}
    (h : dictGet k m = none) : dictSet k v m = m ++ [(k, v)] := by
  induction m with
  | nil => simp [dictSet]
  | cons e rest ih =>
      rw [dictGet_cons] at h
      by_cases he : e.1 = k
      · simp [he] at h
      · simp [he] at h
        simp [dictSet, he, ih h]

theorem dictGet_dictErase_self (k : κ) (m : List (κ × ν)) :
    dictGet k (dictErase k m) = none := by
  induction m with
  | nil => simp [dictErase, dictGet]
  | cons e rest ih =>
      by_cases he : e.1 = k
      · simpa [dictErase, he] using ih
      · simpa [dictErase, dictGet, he] using ih

theorem dictGet_dictErase_ne {k k' : κ} (m : List (κ × ν)) (h : k ≠ k') :
    dictGet k' (dictErase k m) = dictGet k' m := by
  induction m with
  | nil => simp [dictErase, dictGet]
  | cons e rest ih =>
      by_cases he : e.1 = k
      · have hne : e.1 ≠ k' := by rw [he]; exact h
        simpa [dictErase, dictGet, he, hne, h] using ih
      · by_cases he' : e.1 = k'
        · simp [dictErase, dictGet, he, he', Ne.symm h]
        · simpa [dictErase, dictGet, he, he'] using ih

theorem dictErase_sublist (k : κ) (m : List (κ × ν)) :
    (dictErase k m).Sublist m := by
  induction m with
  | nil => simp [dictErase]
  | cons e rest ih =>
      by_cases he : e.1 = k
      · simp only [dictErase, he, if_true]
        exact ih.cons e
      · simp only [dictErase, he, if_false]
        exact ih.cons₂ e

theorem mem_dictErase {e : κ × ν} {k : κ} {m : List (κ × ν)} :
    e ∈ dictErase k m ↔ e ∈ m ∧ e.1 ≠ k := by
  induction m with
  | nil => simp [dictErase]
  | cons a rest ih =>
      by_cases ha : a.1 = k
      · simp only [dictErase, ha, if_true, ih, List.mem_cons]
        constructor
        · rintro ⟨hm, hne⟩; exact ⟨Or.inr hm, hne⟩
        · rintro ⟨h, hne⟩
          rcases h with rfl | hm
          · exact absurd ha hne
          · exact ⟨hm, hne⟩
      · simp only [dictErase, ha, if_false, List.mem_cons, ih]
        constructor
        · rintro (rfl | ⟨hm, hne⟩)
          · exact ⟨Or.inl rfl, ha⟩
          · exact ⟨Or.inr hm, hne⟩
        · rintro ⟨h, hne⟩
          rcases h with rfl | hm
          · exact Or.inl rfl
          · exact Or.inr ⟨hm, hne⟩

theorem dictErase_of_absent {k : κ} {m : List (κ × ν)}
    (h : dictGet k m = none) : dictErase k m = m := by
  induction m with
  | nil => rfl
  | cons e rest ih =>
      rw [dictGet_cons] at h
      by_cases he : e.1 = k
      · simp [he] at h
      · simp [he] at h
        simp [dictErase, he, ih h]

theorem dictGet_eraseKeys (k : κ) (m : List (κ × ν)) (ks : List κ) :
    dictGet k (eraseKeys m ks) = if k ∈ ks then none else dictGet k m := by
  induction ks generalizing m with
  | nil => simp [eraseKeys]
  | cons a rest ih =>
      show dictGet k (eraseKeys (dictErase a m) rest) = _
      by_cases hk : k ∈ a :: rest
      · rcases List.mem_cons.1 hk with rfl | hk'
        · by_cases hk' : k ∈ rest
          · simp [ih, hk', hk]
          · simp [ih, hk', hk, dictGet_dictErase_self]
        · simp [ih, hk', hk]
      · have h1 : k ≠ a := fun h => hk (h ▸ List.mem_cons_self a rest)
        have h2 : k ∉ rest := fun h => hk (List.mem_cons_of_mem _ h)
        simp [ih, h2, hk, dictGet_dictErase_ne m (Ne.symm h1)]

theorem mem_eraseKeys {e : κ × ν} {m : List (κ × ν)} {ks : List κ} :
    e ∈ eraseKeys m ks ↔ e ∈ m ∧ e.1 ∉ ks := by
  induction ks generalizing m with
  | nil => simp [eraseKeys]
  | cons a rest ih =>
      show e ∈ eraseKeys (dictErase a m) rest ↔ _
      rw [ih, mem_dictErase]
      simp only [List.mem_cons]
      constructor
      · rintro ⟨⟨hm, hne⟩, hnr⟩
        exact ⟨hm, fun h => h.elim hne hnr⟩
      · rintro ⟨hm, h⟩
        exact ⟨⟨hm, fun he => h (Or.inl he)⟩, fun he => h (Or.inr he)⟩

theorem keysND_nil : KeysND ([] : List (κ × ν)) := List.nodup_nil

theorem keysND_of_cons {e : κ × ν} {m : List (κ × ν)} (h : KeysND (e :: m)) :
    KeysND m := by
  unfold KeysND at h ⊢
  simp only [List.map_cons, List.nodup_cons] at h
  exact h.2

theorem keysND_dictErase (k : κ) {m : List (κ × ν)} (h : KeysND m) :
    KeysND (dictErase k m) := by
  unfold KeysND at h ⊢
  exact List.Nodup.sublist ((dictErase_sublist k m).map Prod.fst) h

theorem keysND_eraseKeys (ks : List κ) {m : List (κ × ν)} (h : KeysND m) :
    KeysND (eraseKeys m ks) := by
  induction ks generalizing m with
  | nil => exact h
  | cons a rest ih => exact ih (keysND_dictErase a h)

theorem keysND_append {m₁ m₂ : List (κ × ν)} (h₁ : KeysND m₁) (h₂ : KeysND m₂)
    (hdisj : ∀ k ∈ m₁.map Prod.fst, k ∉ m₂.map Prod.fst) :
    KeysND (m₁ ++ m₂) := by
  unfold KeysND at h₁ h₂ ⊢
  rw [List.map_append, List.nodup_append]
  exact ⟨h₁, h₂, fun a ha hb => (hdisj a ha) hb⟩

theorem dictModify_nil (k : κ) (f : ν → ν) :
    dictModify k f ([] : List (κ × ν)) = [] := rfl

theorem dictModify_cons (k : κ) (f : ν → ν) (e : κ × ν) (m : List (κ × ν)) :
    dictModify k f (e :: m)
      = (if e.1 = k then (e.1, f e.2) else e) :: dictModify k f m := rfl

theorem dictModify_of_absent {k : κ} (f : ν → ν) {m : List (κ × ν)}
    (h : dictGet k m = none) : dictModify k f m = m := by
  induction m with
  | nil => rfl
  | cons e rest ih =>
      rw [dictGet_cons] at h
      by_cases he : e.1 = k
      · simp [he] at h
      · simp [he] at h
        rw [dictModify_cons]
        simp [he, ih h]

theorem dictModify_dictSet {k : κ} (f : ν → ν) (v : ν) {m : List (κ × ν)}
    (hnd : KeysND m) : dictModify k f (dictSet k v m) = dictSet k (f v) m := by
  induction m with
  | nil => simp [dictSet, dictModify]
  | cons e rest ih =>
      by_cases he : e.1 = k
      · have habs : dictGet k rest = none := by
          rw [dictGet_eq_none_iff]
          unfold KeysND at hnd
          simp only [List.map_cons, List.nodup_cons] at hnd
          exact he ▸ hnd.1
        simp only [dictSet, he, if_true, dictModify_cons]
        simp [dictModify_of_absent f habs]
      · simp only [dictSet, he, if_false, dictModify_cons, ite_false]
        rw [ih (keysND_of_cons hnd)]

end DictLemmas

section DictFoldLemmas

variable {κ ν α : Type} [DecidableEq κ]

theorem foldl_dictSet_append (g : α → κ) (f : α → ν) (qs : List α)
    (m : List (κ × ν)) (hfresh : ∀ a ∈ qs, dictGet (g a) m = none)
    (hnd : (qs.map g).Nodup) :
    qs.foldl (fun acc a => dictSet (g a) (f a) acc) m
      = m ++ qs.map (fun a => (g a, f a)) := by
  induction qs generalizing m with
  | nil => simp
  | cons a rest ih =>
      rw [List.foldl_cons, dictSet_fresh _ (hfresh a (List.mem_cons_self a rest))]
      rw [ih (m ++ [(g a, f a)])]
      · simp
      · intro b hb
        rw [dictGet_append, hfresh b (List.mem_cons_of_mem a hb)]
        have hne : g b ≠ g a := by
          simp only [List.map_cons, List.nodup_cons] at hnd
          intro heq
          exact hnd.1 (heq ▸ List.mem_map.2 ⟨b, hb, rfl⟩)
        simp [dictGet, hne, Ne.symm hne]
      · simp only [List.map_cons, List.nodup_cons] at hnd
        exact hnd.2

end DictFoldLemmas

theorem pairwiseB_iff {α : Type} (f : α → α → Bool) (l : List α) :
    pairwiseB f l = true ↔ List.Pairwise (fun a b => f a b = true) l := by
  induction l with
  | nil => simp [pairwiseB]
  | cons a rest ih =>
      simp [pairwiseB, List.pairwise_cons, ih, List.all_eq_true, and_comm]

theorem wfB_iff (pref : Param → ParamRef) (t : TrainerReg) :
    wfB pref t = true ↔ WF pref t := by
  constructor
  · intro h
    simp only [wfB, Bool.and_eq_true, decide_eq_true_eq, List.all_eq_true,
      List.any_eq_true, Bool.or_eq_true, List.isEmpty_iff, pairwiseB_iff] at h
    obtain ⟨⟨⟨⟨⟨⟨⟨⟨⟨h1, h2⟩, h3⟩, h4⟩, h5⟩, h6⟩, h7⟩, h8⟩, h9⟩, h10⟩ := h
    refine ⟨h1, h2, h3, h4, ?_, ?_, ?_, ?_, ?_, ?_⟩
    · intro o l hol r hr
      exact h5 (o, l) hol r hr
    · intro r o hro
      have hmatch := h6 (r, o) hro
      dsimp only at hmatch
      cases hgo : dictGet o t.reg.optimToParam with
      | none => rw [hgo] at hmatch; exact absurd hmatch (by simp)
      | some l =>
          rw [hgo] at hmatch
          simp only [decide_eq_true_eq] at hmatch
          exact ⟨l, rfl, hmatch⟩
    · intro r p hrp
      exact h7 (r, p) hrp
    · intro o l hol
      rcases h8 (o, l) hol with hnil | ⟨me, hme, hall⟩
      · exact Or.inl hnil
      · exact Or.inr ⟨me, hme, hall⟩
    · exact List.Pairwise.imp (fun h r hr => h r hr) h9
    · exact h10
  · intro h
    simp only [wfB, Bool.and_eq_true, decide_eq_true_eq, List.all_eq_true,
      List.any_eq_true, Bool.or_eq_true, List.isEmpty_iff, pairwiseB_iff]
    refine ⟨⟨⟨⟨⟨⟨⟨⟨⟨h.ndParams, h.ndPto⟩, h.ndOtp⟩, h.ndModules⟩, ?_⟩, ?_⟩,
      ?_⟩, ?_⟩, ?_⟩, h.refsNodup⟩
    · intro x hx r hr
      obtain ⟨o, l⟩ := x
      exact h.backlink1 o l hx r hr
    · intro x hx
      obtain ⟨r, o⟩ := x
      rcases h.backlink2 r o hx with ⟨l, hl, hmem⟩
      dsimp only
      rw [hl]
      simpa using hmem
    · intro x hx
      obtain ⟨r, p⟩ := x
      exact h.hasOwner r p hx
    · intro x hx
      obtain ⟨o, l⟩ := x
      rcases h.locality o l hx with hnil | ⟨me, hme, hall⟩
      · exact Or.inl hnil
      · exact Or.inr ⟨me, hme, hall⟩
    · exact List.Pairwise.imp (fun h r hr => h r hr) h.modDisj

/-! ### Characterizing the registration loop -/

theorem registerLoop_eq (pref : Param → ParamRef) (o : OptId) (qs : List Param)
    (reg : Registry) :
    registerLoop pref o qs reg =
      { optimToParam := qs.foldl
          (fun acc p => dictModify o (fun l => l ++ [pref p]) acc) reg.optimToParam
        paramToOptim := qs.foldl (fun acc p => dictSet (pref p) o acc) reg.paramToOptim
        params := qs.foldl (fun acc p => dictSet (pref p) p acc) reg.params } := by
  induction qs generalizing reg with
  | nil => rfl
  | cons p rest ih =>
      show registerLoop pref o rest _ = _
      rw [ih]
      rfl

theorem foldl_modify_collect (o : OptId) (pref : Param → ParamRef)
    (qs : List Param) (v : List ParamRef) {m : List (OptId × List ParamRef)}
    (hnd : KeysND m) :
    qs.foldl (fun acc p => dictModify o (fun l => l ++ [pref p]) acc) (dictSet o v m)
      = dictSet o (v ++ qs.map pref) m := by
  induction qs generalizing v with
  | nil => simp
  | cons p rest ih =>
      rw [List.foldl_cons, dictModify_dictSet _ _ hnd, ih (v ++ [pref p])]
      simp

theorem foldl_dictSet_params (pref : Param → ParamRef) (qs : List Param)
    (m : List (ParamRef × Param)) (hfresh : ∀ p ∈ qs, dictGet (pref p) m = none)
    (hnd : (qs.map pref).Nodup) :
    qs.foldl (fun acc p => dictSet (pref p) p acc) m
      = m ++ qs.map (fun p => (pref p, p)) :=
  foldl_dictSet_append pref (fun p => p) qs m hfresh hnd

theorem foldl_dictSet_pto (pref : Param → ParamRef) (o : OptId) (qs : List Param)
    (m : List (ParamRef × OptId)) (hfresh : ∀ p ∈ qs, dictGet (pref p) m = none)
    (hnd : (qs.map pref).Nodup) :
    qs.foldl (fun acc p => dictSet (pref p) o acc) m
      = m ++ qs.map (fun p => (pref p, o)) :=
  foldl_dictSet_append pref (fun _ => o) qs m hfresh hnd

theorem registerPair_eq_append (pref : Param → ParamRef) (reg : Registry)
    (qs : List Param) (o : OptId)
    (hndO : KeysND reg.optimToParam)
    (ho : dictGet o reg.optimToParam = none)
    (hfP : ∀ p ∈ qs, dictGet (pref p) reg.params = none)
    (hfT : ∀ p ∈ qs, dictGet (pref p) reg.paramToOptim = none)
    (hnd : (qs.map pref).Nodup) :
    registerPair pref reg (qs, o) =
      { optimToParam := reg.optimToParam ++ [(o, qs.map pref)]
        paramToOptim := reg.paramToOptim ++ qs.map (fun p => (pref p, o))
        params := reg.params ++ qs.map (fun p => (pref p, p)) } := by
  unfold registerPair
  rw [registerLoop_eq]
  show Registry.mk
      (qs.foldl (fun acc p => dictModify o (fun l => l ++ [pref p]) acc)
        (dictSet o [] reg.optimToParam))
      (qs.foldl (fun acc p => dictSet (pref p) o acc) reg.paramToOptim)
      (qs.foldl (fun acc p => dictSet (pref p) p acc) reg.params) = _
  rw [foldl_modify_collect o pref qs [] hndO,
    foldl_dictSet_pto pref o qs reg.paramToOptim hfT hnd,
    foldl_dictSet_params pref qs reg.params hfP hnd]
  rw [List.nil_append, dictSet_fresh _ ho]

theorem map_fst_pairs {α κ ν : Type} (g : α → κ) (f : α → ν) (qs : List α) :
    (qs.map (fun a => (g a, f a))).map Prod.fst = qs.map g := by
  simp [List.map_map]

theorem fresh_disjoint {κ ν : Type} [DecidableEq κ] {m : List (κ × ν)}
    {ks : List κ} (h : ∀ k ∈ ks, dictGet k m = none) :
    ∀ k ∈ m.map Prod.fst, k ∉ ks :=
  fun k hk hks => (dictGet_eq_none_iff.1 (h k hks)) hk

theorem keysND_block {α κ ν : Type} [DecidableEq κ] (g : α → κ) (f : α → ν)
    {qs : List α} (h : (qs.map g).Nodup) :
    KeysND (qs.map (fun a => (g a, f a))) := by
  show ((qs.map (fun a => (g a, f a))).map Prod.fst).Nodup
  rw [map_fst_pairs]
  exact h

theorem disjoint_block {α κ ν ν' : Type} [DecidableEq κ] {m : List (κ × ν)}
    (g : α → κ) (f : α → ν') {qs : List α}
    (h : ∀ a ∈ qs, dictGet (g a) m = none) :
    ∀ k ∈ m.map Prod.fst, k ∉ (qs.map (fun a => (g a, f a))).map Prod.fst := by
  intro k hk hkb
  rw [map_fst_pairs] at hkb
  rcases List.mem_map.1 hkb with ⟨a, ha, rfl⟩
  exact (dictGet_eq_none_iff.1 (h a ha)) hk

theorem registerPairs_eq_append (pref : Param → ParamRef) (reg : Registry)
    (pairs : List (List Param × OptId))
    (hndP : KeysND reg.params) (hndT : KeysND reg.paramToOptim)
    (hndO : KeysND reg.optimToParam)
    (hOfresh : ∀ pr ∈ pairs, dictGet pr.2 reg.optimToParam = none)
    (hOnd : (pairs.map Prod.snd).Nodup)
    (hRfP : ∀ pr ∈ pairs, ∀ p ∈ pr.1, dictGet (pref p) reg.params = none)
    (hRfT : ∀ pr ∈ pairs, ∀ p ∈ pr.1, dictGet (pref p) reg.paramToOptim = none)
    (hRnd : ((pairs.map (fun pr => pr.1.map pref)).flatten).Nodup) :
    registerPairs pref reg pairs =
      { optimToParam := reg.optimToParam
          ++ pairs.map (fun pr => (pr.2, pr.1.map pref))
        paramToOptim := reg.paramToOptim
          ++ (pairs.map (fun pr => pr.1.map (fun p => (pref p, pr.2)))).flatten
        params := reg.params
          ++ (pairs.map (fun pr => pr.1.map (fun p => (pref p, p)))).flatten } := by
  induction pairs generalizing reg hndP hndT hndO with
  | nil => simp [registerPairs]
  | cons pr rest ih =>
      obtain ⟨qs, o⟩ := pr
      have hmem : ((qs, o) : List Param × OptId) ∈ (qs, o) :: rest :=
        List.mem_cons_self _ _
      have hRnd' : (qs.map pref).Nodup
          ∧ ((rest.map (fun pr => pr.1.map pref)).flatten).Nodup
          ∧ (qs.map pref).Disjoint
              ((rest.map (fun pr => pr.1.map pref)).flatten) := by
        simpa [List.nodup_append] using hRnd
      have hpair := registerPair_eq_append pref reg qs o hndO (hOfresh _ hmem)
        (fun p hp => hRfP _ hmem p hp) (fun p hp => hRfT _ hmem p hp) hRnd'.1
      have hOnd' : o ∉ rest.map Prod.snd ∧ (rest.map Prod.snd).Nodup := by
        simpa using hOnd
      -- membership of a later pair's reference in the tail's flattened blocks
      have hmem_flat : ∀ pr' ∈ rest, ∀ p ∈ pr'.1,
          pref p ∈ (rest.map (fun pr => pr.1.map pref)).flatten := by
        intro pr' hpr' p hp
        exact List.mem_flatten.2 ⟨pr'.1.map pref,
          List.mem_map.2 ⟨pr', hpr', rfl⟩, List.mem_map.2 ⟨p, hp, rfl⟩⟩
      show registerPairs pref (registerPair pref reg (qs, o)) rest = _
      rw [hpair]
      rw [ih _
        (keysND_append hndP (keysND_block pref (fun p => p) hRnd'.1)
          (disjoint_block pref (fun p => p) (fun p hp => hRfP _ hmem p hp)))
        (keysND_append hndT (keysND_block pref (fun _ => o) hRnd'.1)
          (disjoint_block pref (fun _ => o) (fun p hp => hRfT _ hmem p hp)))
        (keysND_append hndO
          (show (([(o, qs.map pref)]).map Prod.fst).Nodup by simp)
          (by intro k hk
              simp only [List.map_cons, List.map_nil, List.mem_singleton]
              intro heq
              exact (dictGet_eq_none_iff.1 (hOfresh _ hmem)) (heq ▸ hk)))
        (by intro pr' hpr'
            rw [dictGet_append_right _ (hOfresh _ (List.mem_cons_of_mem _ hpr'))]
            have hne : pr'.2 ≠ o := by
              intro heq
              exact hOnd'.1 (heq ▸ List.mem_map.2 ⟨pr', hpr', rfl⟩)
            simp [dictGet, Ne.symm hne])
        hOnd'.2
        (by intro pr' hpr' p hp
            rw [dictGet_append_right _ (hRfP _ (List.mem_cons_of_mem _ hpr') p hp)]
            rw [dictGet_eq_none_iff, map_fst_pairs]
            intro hin
            exact hRnd'.2.2 hin (hmem_flat pr' hpr' p hp))
        (by intro pr' hpr' p hp
            rw [dictGet_append_right _ (hRfT _ (List.mem_cons_of_mem _ hpr') p hp)]
            rw [dictGet_eq_none_iff, map_fst_pairs]
            intro hin
            exact hRnd'.2.2 hin (hmem_flat pr' hpr' p hp))
        hRnd'.2.1]
      simp [List.append_assoc]

/-! ### Characterizing the removal loop -/

theorem unregisterLoop_step (pref : Param → ParamRef) (p : Param)
    (rest : List Param) (reg : Registry) :
    unregisterLoop pref (p :: rest) reg =
      unregisterLoop pref rest
        { params := dictErase (pref p) reg.params
          paramToOptim := dictErase (pref p) reg.paramToOptim
          optimToParam :=
            match dictGet (pref p) reg.paramToOptim with
            | some o => dictErase o reg.optimToParam
            | none => reg.optimToParam } := by
  simp only [unregisterLoop]
  have hif : (if (dictGet (pref p) reg.params).isSome then
      { reg with params := dictErase (pref p) reg.params } else reg)
      = { reg with params := dictErase (pref p) reg.params } := by
    cases hP : dictGet (pref p) reg.params with
    | none => simp [dictErase_of_absent hP]
    | some v => simp
  rw [hif]
  cases hT : dictGet (pref p) reg.paramToOptim with
  | none =>
      simp only []
      congr 1
      simp [dictErase_of_absent hT]
  | some o =>
      simp only []
      cases hO : dictGet o reg.optimToParam with
      | none => simp [dictErase_of_absent hO]
      | some l => simp

theorem filterMap_congr_mem {α β : Type} {f g : α → Option β} {l : List α}
    (h : ∀ a ∈ l, f a = g a) : l.filterMap f = l.filterMap g := by
  induction l with
  | nil => rfl
  | cons a rest ih =>
      rw [List.filterMap_cons, List.filterMap_cons,
        h a (List.mem_cons_self a rest), ih (fun b hb => h b (List.mem_cons_of_mem a hb))]

theorem unregisterLoop_eq (pref : Param → ParamRef) (qs : List Param)
    (reg : Registry) (hnd : (qs.map pref).Nodup) :
    unregisterLoop pref qs reg =
      { params := eraseKeys reg.params (qs.map pref)
        paramToOptim := eraseKeys reg.paramToOptim (qs.map pref)
        optimToParam := eraseKeys reg.optimToParam
          ((qs.map pref).filterMap (fun r => dictGet r reg.paramToOptim)) } := by
  induction qs generalizing reg with
  | nil =>
      show reg = _
      simp [eraseKeys]
  | cons p rest ih =>
      simp only [List.map_cons, List.nodup_cons] at hnd
      rw [unregisterLoop_step, ih _ hnd.2]
      have hlk : ∀ r' ∈ rest.map pref,
          dictGet r' (dictErase (pref p) reg.paramToOptim)
            = dictGet r' reg.paramToOptim := by
        intro r' hr'
        have hne : pref p ≠ r' := fun heq => hnd.1 (heq ▸ hr')
        exact dictGet_dictErase_ne _ hne
      congr 1
      rw [filterMap_congr_mem hlk]
      cases hT : dictGet (pref p) reg.paramToOptim with
      | none =>
          show eraseKeys reg.optimToParam _ = _
          rw [List.map_cons, List.filterMap_cons, hT]
      | some o =>
          show eraseKeys (dictErase o reg.optimToParam) _ = _
          rw [List.map_cons, List.filterMap_cons, hT]
          rfl

/-! ### The invariant argument -/

theorem entries_eq_of_keysND {κ ν : Type} [DecidableEq κ] {m : List (κ × ν)}
    (hnd : KeysND m) {e₁ e₂ : κ × ν} (h₁ : e₁ ∈ m) (h₂ : e₂ ∈ m)
    (hk : e₁.1 = e₂.1) : e₁ = e₂ := by
  have g₁ : dictGet e₁.1 m = some e₁.2 := dictGet_of_mem hnd h₁
  have g₂ : dictGet e₂.1 m = some e₂.2 := dictGet_of_mem hnd h₂
  rw [hk, g₂] at g₁
  cases e₁
  cases e₂
  simp_all

theorem consistentB_of_WF {pref : Param → ParamRef} {t : TrainerReg}
    (h : WF pref t) : consistentB t.reg = true := by
  simp only [consistentB, Bool.and_eq_true, decide_eq_true_eq, List.all_eq_true,
    pairwiseB_iff]
  refine ⟨⟨⟨⟨h.ndParams, h.ndPto⟩, h.ndOtp⟩, ?_⟩, ?_⟩
  · intro e he
    obtain ⟨r, p⟩ := e
    have hs := h.hasOwner r p he
    dsimp only
    cases hT : dictGet r t.reg.paramToOptim with
    | none => rw [hT] at hs; simp at hs
    | some o =>
        rcases h.backlink2 r o (dictGet_mem hT) with ⟨l, hl, hm⟩
        dsimp only
        rw [hl]
        simpa using hm
  · have hkeys : List.Pairwise (fun a b : OptId × List ParamRef => a.1 ≠ b.1)
        t.reg.optimToParam := List.pairwise_map.1 h.ndOtp
    refine List.Pairwise.imp_of_mem ?_ hkeys
    intro a b ha hb hne
    intro r hra hrb
    obtain ⟨o1, l1⟩ := a
    obtain ⟨o2, l2⟩ := b
    have h1 := h.backlink1 o1 l1 ha r hra
    have h2 := h.backlink1 o2 l2 hb r hrb
    rw [h1] at h2
    exact hne (Option.some.inj h2)

theorem WF_add (pref : Param → ParamRef) {t : TrainerReg} (h : WF pref t)
    {mid : ModuleID} {ps : List Param} {pairs : List (List Param × OptId)}
    (hv : validAdd pref t mid ps pairs = true) :
    WF pref (applyOp pref t (Op.add mid ps pairs)) := by
  simp only [validAdd, Bool.and_eq_true, decide_eq_true_eq, List.all_eq_true,
    Option.isNone_iff_eq_none] at hv
  obtain ⟨⟨⟨⟨⟨⟨hv1, hv2⟩, hv3⟩, hv4⟩, hv5⟩, hv6⟩, hv7⟩ := hv
  -- reformulate the Bool conditions
  have hv3' : ∀ me ∈ t.modules, ∀ r ∈ ps.map pref, r ∉ me.2.map pref := by
    intro me hme r hr
    have := hv3 me hme r hr
    simpa using this
  have hv7' : ∀ pr ∈ pairs, ∀ p ∈ pr.1, pref p ∈ ps.map pref := by
    intro pr hpr p hp
    have := hv7 pr hpr (pref p) (List.mem_map.2 ⟨p, hp, rfl⟩)
    simpa using this
  -- the new references are fresh in the registry
  have hfreshT : ∀ pr ∈ pairs, ∀ p ∈ pr.1,
      dictGet (pref p) t.reg.paramToOptim = none := by
    intro pr hpr p hp
    cases hT : dictGet (pref p) t.reg.paramToOptim with
    | none => rfl
    | some o =>
        exfalso
        rcases h.backlink2 (pref p) o (dictGet_mem hT) with ⟨l, hl, hm⟩
        rcases h.locality o l (dictGet_mem hl) with hnil | ⟨me, hme, hloc⟩
        · rw [hnil] at hm; simp at hm
        · exact hv3' me hme (pref p) (hv7' pr hpr p hp) (hloc (pref p) hm)
  have hfreshP : ∀ pr ∈ pairs, ∀ p ∈ pr.1,
      dictGet (pref p) t.reg.params = none := by
    intro pr hpr p hp
    cases hP : dictGet (pref p) t.reg.params with
    | none => rfl
    | some v =>
        exfalso
        have := h.hasOwner (pref p) v (dictGet_mem hP)
        rw [hfreshT pr hpr p hp] at this
        simp at this
  have hreg := registerPairs_eq_append pref t.reg pairs h.ndParams h.ndPto
    h.ndOtp hv5 hv4 hfreshP hfreshT hv6
  have hmods : dictSet mid ps t.modules = t.modules ++ [(mid, ps)] :=
    dictSet_fresh ps hv1
  show WF pref { modules := dictSet mid ps t.modules
                 reg := registerPairs pref t.reg pairs }
  rw [hreg, hmods]
  -- abbreviations for the appended blocks
  set Aotp := pairs.map (fun pr => (pr.2, pr.1.map pref)) with hAotp
  set Apto := (pairs.map (fun pr => pr.1.map (fun p => (pref p, pr.2)))).flatten
    with hApto
  set Apar := (pairs.map (fun pr => pr.1.map (fun p => (pref p, p)))).flatten
    with hApar
  -- key lists of the blocks
  have hAptoKeys : Apto.map Prod.fst = (pairs.map (fun pr => pr.1.map pref)).flatten := by
    rw [hApto, List.map_flatten, List.map_map]
    congr 1
    apply List.map_congr_left
    intro pr _
    exact map_fst_pairs pref (fun p => pr.2) pr.1
  have hAparKeys : Apar.map Prod.fst = (pairs.map (fun pr => pr.1.map pref)).flatten := by
    rw [hApar, List.map_flatten, List.map_map]
    congr 1
    apply List.map_congr_left
    intro pr _
    exact map_fst_pairs pref (fun p => p) pr.1
  have hAotpKeys : Aotp.map Prod.fst = pairs.map Prod.snd :=
    map_fst_pairs Prod.snd (fun pr => pr.1.map pref) pairs
  -- membership in the blocks
  have memApto : ∀ pr ∈ pairs, ∀ p ∈ pr.1, (pref p, pr.2) ∈ Apto := by
    intro pr hpr p hp
    exact List.mem_flatten.2 ⟨pr.1.map (fun p => (pref p, pr.2)),
      List.mem_map.2 ⟨pr, hpr, rfl⟩, List.mem_map.2 ⟨p, hp, rfl⟩⟩
  have memApar : ∀ pr ∈ pairs, ∀ p ∈ pr.1, (pref p, p) ∈ Apar := by
    intro pr hpr p hp
    exact List.mem_flatten.2 ⟨pr.1.map (fun p => (pref p, p)),
      List.mem_map.2 ⟨pr, hpr, rfl⟩, List.mem_map.2 ⟨p, hp, rfl⟩⟩
  have memAotp : ∀ pr ∈ pairs, (pr.2, pr.1.map pref) ∈ Aotp := by
    intro pr hpr
    exact List.mem_map.2 ⟨pr, hpr, rfl⟩
  -- nodup keys of the appended dicts
  have ndP' : KeysND (t.reg.params ++ Apar) := by
    refine keysND_append h.ndParams ?_ ?_
    · show (Apar.map Prod.fst).Nodup
      rw [hAparKeys]; exact hv6
    · intro k hk hkb
      rw [hAparKeys] at hkb
      rcases List.mem_flatten.1 hkb with ⟨blk, hblk, hkblk⟩
      rcases List.mem_map.1 hblk with ⟨pr, hpr, rfl⟩
      rcases List.mem_map.1 hkblk with ⟨p, hp, rfl⟩
      exact (dictGet_eq_none_iff.1 (hfreshP pr hpr p hp)) hk
  have ndT' : KeysND (t.reg.paramToOptim ++ Apto) := by
    refine keysND_append h.ndPto ?_ ?_
    · show (Apto.map Prod.fst).Nodup
      rw [hAptoKeys]; exact hv6
    · intro k hk hkb
      rw [hAptoKeys] at hkb
      rcases List.mem_flatten.1 hkb with ⟨blk, hblk, hkblk⟩
      rcases List.mem_map.1 hblk with ⟨pr, hpr, rfl⟩
      rcases List.mem_map.1 hkblk with ⟨p, hp, rfl⟩
      exact (dictGet_eq_none_iff.1 (hfreshT pr hpr p hp)) hk
  have ndO' : KeysND (t.reg.optimToParam ++ Aotp) := by
    refine keysND_append h.ndOtp ?_ ?_
    · show (Aotp.map Prod.fst).Nodup
      rw [hAotpKeys]; exact hv4
    · intro k hk hkb
      rw [hAotpKeys] at hkb
      rcases List.mem_map.1 hkb with ⟨pr, hpr, rfl⟩
      exact (dictGet_eq_none_iff.1 (hv5 pr hpr)) hk
  have ndM' : KeysND (t.modules ++ [(mid, ps)]) := by
    refine keysND_append h.ndModules
      (show (([(mid, ps)]).map Prod.fst).Nodup by simp) ?_
    intro k hk
    simp only [List.map_cons, List.map_nil, List.mem_singleton]
    intro heq
    exact (dictGet_eq_none_iff.1 hv1) (heq ▸ hk)
  refine ⟨ndP', ndT', ndO', ndM', ?_, ?_, ?_, ?_, ?_, ?_⟩
  · -- backlink1
    intro o l hol r hr
    rcases List.mem_append.1 hol with hold | hnew
    · exact dictGet_append_left _ (h.backlink1 o l hold r hr)
    · rcases List.mem_map.1 hnew with ⟨pr, hpr, heq⟩
      simp only [Prod.mk.injEq] at heq
      obtain ⟨rfl, rfl⟩ := heq
      rcases List.mem_map.1 hr with ⟨p, hp, rfl⟩
      exact dictGet_of_mem ndT' (List.mem_append_right _ (memApto pr hpr p hp))
  · -- backlink2
    intro r o hro
    rcases List.mem_append.1 hro with hold | hnew
    · rcases h.backlink2 r o hold with ⟨l, hl, hm⟩
      exact ⟨l, dictGet_append_left _ hl, hm⟩
    · rcases List.mem_flatten.1 hnew with ⟨blk, hblk, hroblk⟩
      rcases List.mem_map.1 hblk with ⟨pr, hpr, rfl⟩
      rcases List.mem_map.1 hroblk with ⟨p, hp, heq⟩
      simp only [Prod.mk.injEq] at heq
      obtain ⟨rfl, rfl⟩ := heq
      refine ⟨pr.1.map pref, ?_, List.mem_map.2 ⟨p, hp, rfl⟩⟩
      exact dictGet_of_mem ndO' (List.mem_append_right _ (memAotp pr hpr))
  · -- hasOwner
    intro r p0 hrp
    rcases List.mem_append.1 hrp with hold | hnew
    · have hs := h.hasOwner r p0 hold
      rcases Option.isSome_iff_exists.1 hs with ⟨o, ho⟩
      rw [dictGet_append_left _ ho]
      rfl
    · rcases List.mem_flatten.1 hnew with ⟨blk, hblk, heblk⟩
      rcases List.mem_map.1 hblk with ⟨pr, hpr, rfl⟩
      rcases List.mem_map.1 heblk with ⟨p, hp, heq⟩
      simp only [Prod.mk.injEq] at heq
      obtain ⟨rfl, rfl⟩ := heq
      rw [dictGet_of_mem ndT' (List.mem_append_right _ (memApto pr hpr p hp))]
      rfl
  · -- locality
    intro o l hol
    rcases List.mem_append.1 hol with hold | hnew
    · rcases h.locality o l hold with hnil | ⟨me, hme, hloc⟩
      · exact Or.inl hnil
      · exact Or.inr ⟨me, List.mem_append_left _ hme, hloc⟩
    · rcases List.mem_map.1 hnew with ⟨pr, hpr, heq⟩
      simp only [Prod.mk.injEq] at heq
      obtain ⟨rfl, rfl⟩ := heq
      refine Or.inr ⟨(mid, ps), List.mem_append_right _ (List.mem_singleton.2 rfl), ?_⟩
      intro r hr
      rcases List.mem_map.1 hr with ⟨p, hp, rfl⟩
      exact hv7' pr hpr p hp
  · -- module disjointness
    rw [List.pairwise_append]
    refine ⟨h.modDisj, by simp, ?_⟩
    intro a ha b hb r hra
    rcases List.mem_singleton.1 hb with rfl
    intro hrb
    exact hv3' a ha r hrb hra
  · -- per-module reference nodup
    intro me hme
    rcases List.mem_append.1 hme with hold | hnew
    · exact h.refsNodup me hold
    · rcases List.mem_singleton.1 hnew with rfl
      exact hv2

theorem WF_remove (pref : Param → ParamRef) {t : TrainerReg} (h : WF pref t)
    {mid : ModuleID} {ps : List Param}
    (hps : dictGet mid t.modules = some ps) :
    WF pref { modules := dictErase mid t.modules
              reg := unregisterLoop pref ps t.reg } := by
  have hmidmem : (mid, ps) ∈ t.modules := dictGet_mem hps
  have hndps : (ps.map pref).Nodup := h.refsNodup (mid, ps) hmidmem
  rw [unregisterLoop_eq pref ps t.reg hndps]
  set rs := ps.map pref with hrs
  set owners := rs.filterMap (fun r => dictGet r t.reg.paramToOptim)
    with howners
  have hsym : Symmetric (fun a b : ModuleID × List Param =>
      ∀ r ∈ a.2.map pref, r ∉ b.2.map pref) := by
    intro a b hab r hrb hra
    exact hab r hra hrb
  have hdisj := List.Pairwise.forall hsym h.modDisj
  have howner_mem : ∀ r o, r ∈ rs →
      dictGet r t.reg.paramToOptim = some o → o ∈ owners := by
    intro r o hr hro
    exact List.mem_filterMap.2 ⟨r, hr, hro⟩
  -- an optimizer that owns a removed reference owns only removed references
  have howner_only : ∀ o ∈ owners, ∀ l,
      dictGet o t.reg.optimToParam = some l → ∀ r ∈ l, r ∈ rs := by
    intro o ho l hl r hr
    rcases List.mem_filterMap.1 ho with ⟨r₂, hr₂, hro₂⟩
    rcases h.backlink2 r₂ o (dictGet_mem hro₂) with ⟨l₂, hl₂, hm₂⟩
    rw [hl] at hl₂
    obtain rfl : l = l₂ := Option.some.inj hl₂
    rcases h.locality o l (dictGet_mem hl) with hnil | ⟨me, hme, hloc⟩
    · rw [hnil] at hr; simp at hr
    · by_cases hmeeq : me = (mid, ps)
      · rw [hmeeq] at hloc
        exact hloc r hr
      · exfalso
        exact hdisj hme hmidmem hmeeq r₂ (hloc r₂ hm₂) hr₂
  refine ⟨keysND_eraseKeys rs h.ndParams, keysND_eraseKeys rs h.ndPto,
    keysND_eraseKeys owners h.ndOtp, keysND_dictErase mid h.ndModules,
    ?_, ?_, ?_, ?_, ?_, ?_⟩
  · -- backlink1
    intro o l hol r hr
    have hol' := mem_eraseKeys.1 hol
    have hb := h.backlink1 o l hol'.1 r hr
    rw [dictGet_eraseKeys]
    by_cases hrin : r ∈ rs
    · exact absurd (howner_mem r o hrin hb) hol'.2
    · rw [if_neg hrin]
      exact hb
  · -- backlink2
    intro r o hro
    have hro' := mem_eraseKeys.1 hro
    rcases h.backlink2 r o hro'.1 with ⟨l, hl, hm⟩
    refine ⟨l, ?_, hm⟩
    rw [dictGet_eraseKeys]
    have honot : o ∉ owners := by
      intro ho
      exact hro'.2 (howner_only o ho l hl r hm)
    rw [if_neg honot]
    exact hl
  · -- hasOwner
    intro r p0 hrp
    have hrp' := mem_eraseKeys.1 hrp
    have hs := h.hasOwner r p0 hrp'.1
    rw [dictGet_eraseKeys, if_neg hrp'.2]
    exact hs
  · -- locality
    intro o l hol
    have hol' := mem_eraseKeys.1 hol
    rcases h.locality o l hol'.1 with hnil | ⟨me, hme, hloc⟩
    · exact Or.inl hnil
    · by_cases hlnil : l = []
      · exact Or.inl hlnil
      · have hmene : me.1 ≠ mid := by
          intro heq
          have hmeeq : me = (mid, ps) :=
            entries_eq_of_keysND h.ndModules hme hmidmem heq
          rcases List.exists_mem_of_ne_nil l hlnil with ⟨r₀, hr₀⟩
          have hb := h.backlink1 o l hol'.1 r₀ hr₀
          have hr₀rs : r₀ ∈ rs := by
            rw [hmeeq] at hloc
            exact hloc r₀ hr₀
          exact hol'.2 (howner_mem r₀ o hr₀rs hb)
        exact Or.inr ⟨me, mem_dictErase.2 ⟨hme, hmene⟩, hloc⟩
  · -- module disjointness
    exact List.Pairwise.sublist (dictErase_sublist mid t.modules) h.modDisj
  · -- per-module reference nodup
    intro me hme
    exact h.refsNodup me (mem_dictErase.1 hme).1

theorem WF_applyOp (pref : Param → ParamRef) {t : TrainerReg} (h : WF pref t)
    {op : Op} (hv : validOp pref t op = true) : WF pref (applyOp pref t op) := by
  cases op with
  | add mid ps pairs => exact WF_add pref h hv
  | remove mid =>
      simp only [validOp, Option.isSome_iff_exists] at hv
      rcases hv with ⟨ps, hps⟩
      have hrem := WF_remove pref h hps
      simpa [applyOp, hps] using hrem

theorem consistent_along (pref : Param → ParamRef) {t : TrainerReg}
    (h : WF pref t) {ops : List Op} (hv : validSeq pref t ops = true) :
    ∀ t' ∈ trajectory pref t ops, consistentB t'.reg = true := by
  induction ops generalizing t with
  | nil => intro t' ht'; simp [trajectory] at ht'
  | cons op rest ih =>
      simp only [validSeq, Bool.and_eq_true] at hv
      have hwf' := WF_applyOp pref h hv.1
      intro t' ht'
      simp only [trajectory, List.mem_cons] at ht'
      rcases ht' with rfl | hmem
      · exact consistentB_of_WF hwf'
      · exact ih hwf' hv.2 t' hmem

theorem dictGet_dictModify_ne {κ ν : Type} [DecidableEq κ] {k k' : κ}
    (f : ν → ν) (m : List (κ × ν)) (h : k ≠ k') :
    dictGet k' (dictModify k f m) = dictGet k' m := by
  induction m with
  | nil => rfl
  | cons e rest ih =>
      rw [dictModify_cons]
      by_cases he : e.1 = k
      · have hne : e.1 ≠ k' := by rw [he]; exact h
        simp [dictGet, he, hne, h, ih]
      · simp [dictGet, he, ih]

theorem dictGet_foldl_modify_ne (pref : Param → ParamRef) (o : OptId)
    (qs : List Param) (m : List (OptId × List ParamRef)) {o' : OptId}
    (hne : o ≠ o') :
    dictGet o' (qs.foldl (fun acc p => dictModify o (fun l => l ++ [pref p]) acc) m)
      = dictGet o' m := by
  induction qs generalizing m with
  | nil => rfl
  | cons p rest ih =>
      rw [List.foldl_cons, ih, dictGet_dictModify_ne _ _ hne]

theorem dictGet_foldl_set_preserve {κ ν α : Type} [DecidableEq κ] (g : α → κ)
    (v : ν) (qs : List α) {m : List (κ × ν)} {k : κ}
    (hk : dictGet k m = some v) :
    dictGet k (qs.foldl (fun acc x => dictSet (g x) v acc) m) = some v := by
  induction qs generalizing m with
  | nil => exact hk
  | cons b rest ih =>
      rw [List.foldl_cons]
      apply ih
      by_cases hb : g b = k
      · rw [hb, dictGet_dictSet_self]
      · rw [dictGet_dictSet_ne _ _ hb]
        exact hk

theorem dictGet_foldl_set_const {κ ν α : Type} [DecidableEq κ] (g : α → κ)
    (v : ν) (qs : List α) (m : List (κ × ν)) {a : α} (ha : a ∈ qs) :
    dictGet (g a) (qs.foldl (fun acc x => dictSet (g x) v acc) m) = some v := by
  induction qs generalizing m with
  | nil => simp at ha
  | cons b rest ih =>
      rw [List.foldl_cons]
      rcases List.mem_cons.1 ha with rfl | ha'
      · exact dictGet_foldl_set_preserve g v rest (dictGet_dictSet_self _ _ _)
      · exact ih _ ha'

theorem eraseKeys_of_absent {κ ν : Type} [DecidableEq κ] {m : List (κ × ν)}
    {ks : List κ} (h : ∀ k ∈ ks, dictGet k m = none) : eraseKeys m ks = m := by
  induction ks with
  | nil => rfl
  | cons a rest ih =>
      show eraseKeys (dictErase a m) rest = m
      rw [dictErase_of_absent (h a (List.mem_cons_self a rest))]
      exact ih (fun k hk => h k (List.mem_cons_of_mem a hk))

/-! ### Claim C1 (registry consistency across add/remove sequences) -/

/-- C1, as stated, is false: starting from the successfully built trainer
`demoBuilt` (module A, parameter 1, optimizer 10), the single `add_module`
call that wires module B's parameter 2 to the already-tracked optimizer 10
leaves the three registry mappings mutually inconsistent (reference 1 still
maps to optimizer 10 but optimizer 10's owned list, reset to `[2]` by the
registration loop, no longer contains it). -/
theorem C1_claim_counterexample :
    consistentB ((applyOp prefId demoBuilt (Op.add "B" [2] [([2], 10)])).reg)
      = false := by decide

/-- C1 (amended): after a well-formed build — each optimizer's owned
references drawn from a single module, modules with pairwise-disjoint,
duplicate-free reference sets — for every sequence of valid
`add_module`/`remove_module` calls (each `add_module` registering fresh,
pairwise-distinct optimizers and fresh references that belong to the new
module only; each `remove_module` naming a live module), after each call the
three registry mappings are mutually consistent: every key of the
reference→parameter mapping has exactly one entry in reference→optimizer,
that optimizer's owned-reference list contains the reference, and every
reference belongs to at most one optimizer. -/
theorem C1_registry_consistency (pref : Param → ParamRef) (t : TrainerReg)
    (ops : List Op) (hwf : wfB pref t = true)
    (hv : validSeq pref t ops = true) :
    ∀ t' ∈ trajectory pref t ops, consistentB t'.reg = true :=
  consistent_along pref ((wfB_iff pref t).1 hwf) hv

/-- Witness for `C1_registry_consistency`: a concrete well-formed built
trainer, one addition and one removal, with every hypothesis evaluated. -/
theorem C1_registry_consistency_witness :
    wfB prefId demoBuilt = true
    ∧ validSeq prefId demoBuilt [Op.add "B" [2] [([2], 20)], Op.remove "A"] = true
    ∧ consistentB ((applyOp prefId (applyOp prefId demoBuilt
        (Op.add "B" [2] [([2], 20)])) (Op.remove "A")).reg) = true :=
  ⟨by decide, by decide,
    C1_registry_consistency prefId demoBuilt
      [Op.add "B" [2] [([2], 20)], Op.remove "A"] (by decide) (by decide)
      _ (by decide)⟩

/-! ### Claim C2 (registering an already-owned reference) -/

/-- C2, as stated, is false: on `demoBuilt` (reference 1 owned by optimizer
10), registering the same parameter with the different optimizer 20 — the
very situation the claim says must fail fatally — completes normally (the
registration loops at lines 452-458 and 517-523 contain no ownership check
and raise nothing) and silently reassigns the reference to optimizer 20,
while optimizer 10's owned list still holds the stale reference. -/
theorem C2_claim_counterexample :
    dictGet 1 (registerPairs prefId demoBuilt.reg [([1], 20)]).paramToOptim
        = some 20
    ∧ (20 : OptId) ≠ 10
    ∧ dictGet 10 (registerPairs prefId demoBuilt.reg [([1], 20)]).optimToParam
        = some [1] := by decide

/-- C2 (amended): registering a `(param_seq, optimizer)` pair never fails;
after registering `(qs, o)`, every parameter of `qs` has its reference owned
by `o` — silently overwriting any previous owner — and the owned-reference
list of every other optimizer (in particular a previous owner) is left
untouched, so it retains stale references. -/
theorem C2_register_overwrites (pref : Param → ParamRef) (reg : Registry)
    (qs : List Param) (o : OptId) (p : Param) (hp : p ∈ qs)
    (oO : OptId) (hoO : o ≠ oO) :
    dictGet (pref p) (registerPair pref reg (qs, o)).paramToOptim = some o
    ∧ dictGet oO (registerPair pref reg (qs, o)).optimToParam
        = dictGet oO reg.optimToParam := by
  have hpt : (registerPair pref reg (qs, o)).paramToOptim
      = qs.foldl (fun acc p => dictSet (pref p) o acc) reg.paramToOptim := by
    unfold registerPair
    rw [registerLoop_eq]
  have hot : (registerPair pref reg (qs, o)).optimToParam
      = qs.foldl (fun acc p => dictModify o (fun l => l ++ [pref p]) acc)
          (dictSet o [] reg.optimToParam) := by
    unfold registerPair
    rw [registerLoop_eq]
  constructor
  · rw [hpt]
    exact dictGet_foldl_set_const pref o qs reg.paramToOptim hp
  · rw [hot, dictGet_foldl_modify_ne pref o qs _ hoO,
      dictGet_dictSet_ne _ _ hoO]

/-- Witness for `C2_register_overwrites`: reference 1 of `demoBuilt` is
owned by optimizer 10; registering it under optimizer 20 reassigns it and
leaves optimizer 10's list unchanged. -/
theorem C2_register_overwrites_witness :
    (1 : Param) ∈ [(1 : Param)]
    ∧ (20 : OptId) ≠ 10
    ∧ (dictGet 1 (registerPair prefId demoBuilt.reg ([1], 20)).paramToOptim
          = some 20
      ∧ dictGet 10 (registerPair prefId demoBuilt.reg ([1], 20)).optimToParam
          = dictGet 10 demoBuilt.reg.optimToParam) :=
  ⟨by decide, by decide,
    C2_register_overwrites prefId demoBuilt.reg [1] 20 1 (by decide) 10
      (by decide)⟩

/-! ### Claim C3 (what remove_module does to the registry) -/

/-- C3, as stated, is false in its "deletes the optimizer's entry exactly
when its owned list empties" part: in `demoSharedOpt`, optimizer 10 owns
reference 1 of module A and reference 2 of module B; `remove_module "A"`
deletes optimizer 10's entire entry even though it still owns reference 2 of
the live module B (the claim would have it keep the entry with `[2]`),
leaving the dangling reference→optimizer entry `(2, 10)`. -/
theorem C3_claim_counterexample :
    dictGet 10 ((applyOp prefId demoSharedOpt (Op.remove "A")).reg.optimToParam)
        = none
    ∧ dictGet 2 ((applyOp prefId demoSharedOpt (Op.remove "A")).reg.paramToOptim)
        = some 10 := by decide

/-- C3 (amended): for a module whose parameters have pairwise-distinct
references, the removal loop removes every one of its references from
reference→parameter and reference→optimizer; it deletes the owning
optimizer's ENTIRE optimizer→references entry whenever one of that
optimizer's references is removed (regardless of what else the optimizer
still owns); and removing references absent from the mappings is a benign
no-op that leaves the registry unchanged. -/
theorem C3_remove_module_registry (pref : Param → ParamRef) (reg : Registry)
    (qs : List Param) (hnd : (qs.map pref).Nodup) :
    (unregisterLoop pref qs reg).params = eraseKeys reg.params (qs.map pref)
    ∧ (unregisterLoop pref qs reg).paramToOptim
        = eraseKeys reg.paramToOptim (qs.map pref)
    ∧ (unregisterLoop pref qs reg).optimToParam
        = eraseKeys reg.optimToParam
            ((qs.map pref).filterMap (fun r => dictGet r reg.paramToOptim))
    ∧ ((∀ p ∈ qs, dictGet (pref p) reg.params = none
          ∧ dictGet (pref p) reg.paramToOptim = none)
        → unregisterLoop pref qs reg = reg) := by
  have hchar := unregisterLoop_eq pref qs reg hnd
  refine ⟨by rw [hchar], by rw [hchar], by rw [hchar], ?_⟩
  intro habs
  have habs' : ∀ k ∈ qs.map pref, dictGet k reg.params = none
      ∧ dictGet k reg.paramToOptim = none := by
    intro k hk
    rcases List.mem_map.1 hk with ⟨p, hp, rfl⟩
    exact habs p hp
  rw [hchar, eraseKeys_of_absent (fun k hk => (habs' k hk).1),
    eraseKeys_of_absent (fun k hk => (habs' k hk).2),
    List.filterMap_eq_nil_iff.2 (fun k hk => (habs' k hk).2)]
  rfl

/-- Witness for `C3_remove_module_registry` on `demoBuilt` with parameters
`[1, 5]` (reference 1 registered, reference 5 absent). -/
theorem C3_remove_module_registry_witness :
    (([1, 5] : List Param).map prefId).Nodup
    ∧ ((unregisterLoop prefId [1, 5] demoBuilt.reg).params
          = eraseKeys demoBuilt.reg.params (([1, 5] : List Param).map prefId)
      ∧ (unregisterLoop prefId [1, 5] demoBuilt.reg).paramToOptim
          = eraseKeys demoBuilt.reg.paramToOptim
              (([1, 5] : List Param).map prefId)
      ∧ (unregisterLoop prefId [1, 5] demoBuilt.reg).optimToParam
          = eraseKeys demoBuilt.reg.optimToParam
              ((([1, 5] : List Param).map prefId).filterMap
                (fun r => dictGet r demoBuilt.reg.paramToOptim))
      ∧ ((∀ p ∈ ([1, 5] : List Param),
            dictGet (prefId p) demoBuilt.reg.params = none
            ∧ dictGet (prefId p) demoBuilt.reg.paramToOptim = none)
          → unregisterLoop prefId [1, 5] demoBuilt.reg = demoBuilt.reg)) :=
  ⟨by decide, C3_remove_module_registry prefId demoBuilt.reg [1, 5] (by decide)⟩

/-! ### Claim C5 (pipeline ordering) -/

/-- C5: on a built (`some m`), non-distributed trainer, one `update` call
invokes the hooks exactly once each and in exactly the source order —
batch conversion, forward pass, loss computation, gradient computation,
gradient post-processing, gradient application, result compilation — and
returns the value the result-compilation hook produced (from the converted
batch, the forward output, the unmodified loss and the postprocessed
gradients), for every choice of underlying hook functions and batch. -/
theorem C5_pipeline_order {μ β γ φ L G R : Type} (f₁ : β → γ) (f₂ : μ → γ → φ)
    (f₃ : φ → γ → L) (f₄ : L → G) (f₅ : G → G) (f₇ : γ → φ → L → G → R)
    (doDist : β → List Ev → Except Err R × List Ev) (m : μ) (b : β) :
    updateModel (logHooks f₁ f₂ f₃ f₄ f₅ f₇) (some m) false doDist b []
      = (Except.ok (f₇ (f₁ b) (f₂ m (f₁ b)) (f₃ (f₂ m (f₁ b)) (f₁ b))
            (f₅ (f₄ (f₃ (f₂ m (f₁ b)) (f₁ b))))),
         [Ev.convertBatch, Ev.forwardTrain, Ev.computeLoss, Ev.computeGradients,
          Ev.postprocessGradients, Ev.applyGradients, Ev.compileResults]) := rfl

/-! ### Claim C7 (distributed dispatch) -/

/-- C7: on a built trainer with `distributed = True` and the distributed
hook left at its default, `update` fails with the not-implemented signal;
and with `distributed = False`, `update` never invokes the distributed hook
— whatever that hook is, the recorded trace of the run contains no
`do_distributed_update` event (and no hook of the local pipeline emits one). -/
theorem C7_distributed_dispatch {σ μ β γ φ L G R : Type}
    (H : PipeHooks σ μ β γ φ L G R) (m : μ) (b : β) (s : σ)
    {γ' φ' L' G' R' : Type} (f₁ : β → γ') (f₂ : μ → γ' → φ') (f₃ : φ' → γ' → L')
    (f₄ : L' → G') (f₅ : G' → G') (f₇ : γ' → φ' → L' → G' → R')
    (doDist : β → List Ev → Except Err R' × List Ev) :
    updateModel H (some m) true doDistDefault b s
        = (Except.error Err.notImplemented, s)
    ∧ Ev.doDistributedUpdate
        ∉ (updateModel (logHooks f₁ f₂ f₃ f₄ f₅ f₇) (some m) false doDist b []).2 := by
  refine ⟨rfl, ?_⟩
  show Ev.doDistributedUpdate ∉
    [Ev.convertBatch, Ev.forwardTrain, Ev.computeLoss, Ev.computeGradients,
     Ev.postprocessGradients, Ev.applyGradients, Ev.compileResults]
  decide

/-! ### Claim C8 (compile_results) -/

/-- C8: the default `compile_results` returns a mapping holding the
numeric-converted loss under `"loss"` and, under `"mean_gradient"`, the mean
over the postprocessed gradients of each gradient's per-parameter mean — a
mean of per-parameter means, which on gradients of unequal sizes (e.g.
`[[0, 0], [6]]`, giving 3) differs from the element-wise mean over all
pooled gradient entries (2 on the same input). -/
theorem C8_compile_results {LT LN : Type} (convertToNumpy : LT → LN) (loss : LT)
    (grads : List (List Rat)) :
    dictGet "loss" (compileResultsModel convertToNumpy loss grads)
        = some (CompVal.lossV (convertToNumpy loss))
    ∧ dictGet "mean_gradient" (compileResultsModel convertToNumpy loss grads)
        = some (CompVal.numV (meanOfPerParamMeans grads))
    ∧ meanOfPerParamMeans [[0, 0], [6]] = 3
    ∧ elementwiseMeanAll [[0, 0], [6]] = 2
    ∧ meanOfPerParamMeans [[0, 0], [6]] ≠ elementwiseMeanAll [[0, 0], [6]] := by
  have h3 : meanOfPerParamMeans [[0, 0], [6]] = 3 := by
    norm_num [meanOfPerParamMeans, npMean]
  have h2 : elementwiseMeanAll [[0, 0], [6]] = 2 := by
    norm_num [elementwiseMeanAll, npMean]
  refine ⟨rfl, ?_, h3, h2, by rw [h3, h2]; norm_num⟩
  show dictGet "mean_gradient"
    [("loss", CompVal.lossV (convertToNumpy loss)),
     ("mean_gradient", CompVal.numV (npMean (grads.map npMean)))]
    = some (CompVal.numV (meanOfPerParamMeans grads))
  simp [dictGet, meanOfPerParamMeans]

/-! ### Claim C4 (loss aggregation) -/

theorem computeLossLoop_eq {βB φ : Type}
    (hook : ModuleID → βB → φ → List (String × Rat)) (batch : ModuleID → βB)
    (l : List (ModuleID × φ)) (lt : Option Rat) (res : List (String × LossVal))
    (htot : ∀ e ∈ l, (dictGet "total_loss" (hook e.1 (batch e.1) e.2)).isSome) :
    computeLossLoop hook batch l lt res = Except.ok
      ((if l.isEmpty then lt
        else some (lt.getD 0 + (l.map (fun e =>
          (dictGet "total_loss" (hook e.1 (batch e.1) e.2)).getD 0)).sum)),
       l.foldl (fun r e =>
         dictSet e.1 (LossVal.entry (hook e.1 (batch e.1) e.2)) r) res) := by
  induction l generalizing lt res with
  | nil => rfl
  | cons e rest ih =>
      rcases Option.isSome_iff_exists.1 (htot e (List.mem_cons_self e rest))
        with ⟨q, hq⟩
      simp only [computeLossLoop]
      rw [hq]
      dsimp only
      rw [ih _ _ (fun x hx => htot x (List.mem_cons_of_mem e hx))]
      rw [show (match lt with
          | none => some q
          | some x => some (x + q)) = some (lt.getD 0 + q) from by
        cases lt <;> simp]
      by_cases hre : rest = []
      · subst hre
        simp [hq]
      · have hre' : rest.isEmpty = false := by
          simpa [List.isEmpty_iff] using hre
        simp [hre', hq, add_assoc]

theorem lossFold_append {βB φ : Type}
    (hook : ModuleID → βB → φ → List (String × Rat)) (batch : ModuleID → βB)
    (l : List (ModuleID × φ)) (res : List (String × LossVal))
    (hfresh : ∀ e ∈ l, dictGet e.1 res = none)
    (hnd : (l.map Prod.fst).Nodup) :
    l.foldl (fun r e =>
        dictSet e.1 (LossVal.entry (hook e.1 (batch e.1) e.2)) r) res
      = res ++ l.map (fun e => (e.1, LossVal.entry (hook e.1 (batch e.1) e.2))) :=
  foldl_dictSet_append Prod.fst
    (fun e => LossVal.entry (hook e.1 (batch e.1) e.2)) l res hfresh hnd

/-- C4: whenever every per-module loss result of the forward output carries
a `"total_loss"` value (and module ids are distinct and distinct from the
reserved key), `compute_loss` succeeds and returns a mapping whose top-level
`"total_loss"` entry is the sum of the per-module `"total_loss"` values and
whose per-module entries are exactly the unmodified per-module loss
results. -/
theorem C4_compute_loss {βB φ : Type}
    (hook : ModuleID → βB → φ → List (String × Rat)) (batch : ModuleID → βB)
    (fwdOut : List (ModuleID × φ)) (hne : fwdOut ≠ [])
    (hnd : (fwdOut.map Prod.fst).Nodup)
    (hkey : "total_loss" ∉ fwdOut.map Prod.fst)
    (htot : ∀ e ∈ fwdOut,
      (dictGet "total_loss" (hook e.1 (batch e.1) e.2)).isSome) :
    ∃ res, computeLossModel hook batch fwdOut = Except.ok res
      ∧ dictGet "total_loss" res = some (LossVal.scalar (some
          ((fwdOut.map (fun e =>
            (dictGet "total_loss" (hook e.1 (batch e.1) e.2)).getD 0)).sum)))
      ∧ ∀ e ∈ fwdOut, dictGet e.1 res
          = some (LossVal.entry (hook e.1 (batch e.1) e.2)) := by
  have hloop := computeLossLoop_eq hook batch fwdOut none [] htot
  have hfold := lossFold_append hook batch fwdOut []
    (fun e _ => rfl) hnd
  have hempty : fwdOut.isEmpty = false := by
    simpa [List.isEmpty_iff] using hne
  have hres : computeLossModel hook batch fwdOut
      = Except.ok (dictSet "total_loss" (LossVal.scalar (some
          ((fwdOut.map (fun e =>
            (dictGet "total_loss" (hook e.1 (batch e.1) e.2)).getD 0)).sum)))
          (fwdOut.map (fun e =>
            (e.1, LossVal.entry (hook e.1 (batch e.1) e.2))))) := by
    unfold computeLossModel
    rw [hloop]
    simp only [hempty, Bool.false_eq_true, if_false, Option.getD_none,
      zero_add, hfold, List.nil_append]
  refine ⟨_, hres, ?_, ?_⟩
  · rw [dictGet_dictSet_self]
  · intro e he
    have hne2 : ("total_loss" : String) ≠ e.1 :=
      fun heq => hkey (heq ▸ List.mem_map.2 ⟨e, he, rfl⟩)
    rw [dictGet_dictSet_ne _ _ hne2]
    exact dictGet_of_mem
      (keysND_block Prod.fst
        (fun e => LossVal.entry (hook e.1 (batch e.1) e.2)) hnd)
      (List.mem_map.2 ⟨e, he, rfl⟩)

/-- Witness for `C4_compute_loss`: per-module total losses {A: 2, B: 3};
the per-module sums total 5 and the per-module entries come back
unmodified. -/
theorem C4_compute_loss_witness :
    demoFwdOut ≠ []
    ∧ (demoFwdOut.map Prod.fst).Nodup
    ∧ "total_loss" ∉ demoFwdOut.map Prod.fst
    ∧ (∀ e ∈ demoFwdOut,
        (dictGet "total_loss" (demoLossHook e.1 (demoBatch e.1) e.2)).isSome)
    ∧ (demoFwdOut.map (fun e =>
        (dictGet "total_loss" (demoLossHook e.1 (demoBatch e.1) e.2)).getD 0)).sum
        = 5
    ∧ (∃ res, computeLossModel demoLossHook demoBatch demoFwdOut = Except.ok res
      ∧ dictGet "total_loss" res = some (LossVal.scalar (some
          ((demoFwdOut.map (fun e =>
            (dictGet "total_loss" (demoLossHook e.1 (demoBatch e.1) e.2)).getD 0)).sum)))
      ∧ ∀ e ∈ demoFwdOut, dictGet e.1 res
          = some (LossVal.entry (demoLossHook e.1 (demoBatch e.1) e.2))) := by
  refine ⟨by decide, by decide, by decide, by decide, ?_,
    C4_compute_loss demoLossHook demoBatch demoFwdOut (by decide) (by decide)
      (by decide) (by decide)⟩
  norm_num [demoFwdOut, demoLossHook, demoBatch, dictGet]

/-! ### Claim C9 (state round-trip) -/

/-- C9: on a built trainer, `get_state` returns the mapping with the single
key `"module_state"` holding the module container's state (optimizer state
is not part of the mapping), and — provided the container's own
`get_state`/`set_state` round-trip faithfully — `set_state(get_state())`
leaves the trainer, and in particular its module container, unchanged. -/
theorem C9_state_roundtrip {M V : Type} (getS : M → List (String × V))
    (setS : M → List (String × V) → M) (t : StTrainer M) (m : M)
    (hm : t.module? = some m) (hrt : ∀ mm, setS mm (getS mm) = mm) :
    getStateT getS t = Except.ok [("module_state", getS m)]
    ∧ setStateT setS t [("module_state", getS m)] = Except.ok t := by
  obtain ⟨mod⟩ := t
  obtain rfl : mod = some m := hm
  refine ⟨rfl, ?_⟩
  unfold setStateT
  dsimp only
  rw [show (dictGet "module_state" [("module_state", getS m)]
      : Option (List (String × V))) = some (getS m) from rfl]
  rw [Option.getD_some, hrt]

/-- Witness for `C9_state_roundtrip` on a concrete container whose state is
the mapping itself. -/
theorem C9_state_roundtrip_witness :
    (({ module? := some [("w", 1)] } : StTrainer (List (String × Nat))).module?
        = some [("w", 1)])
    ∧ (∀ mm : List (String × Nat),
        (fun (_ : List (String × Nat)) (s : List (String × Nat)) => s) mm
          (id mm) = mm)
    ∧ (getStateT id ({ module? := some [("w", 1)] }
          : StTrainer (List (String × Nat)))
        = Except.ok [("module_state", id [("w", 1)])]
      ∧ setStateT (fun _ s => s) ({ module? := some [("w", 1)] }
          : StTrainer (List (String × Nat))) [("module_state", id [("w", 1)])]
        = Except.ok { module? := some [("w", 1)] }) :=
  ⟨rfl, fun _ => rfl,
    C9_state_roundtrip id (fun _ s => s) _ [("w", 1)] rfl (fun _ => rfl)⟩

/-! ### Claim C10 (set_state with missing key) -/

/-- C10: on a built trainer, `set_state` called with a mapping that has no
`"module_state"` key does not fail: `state.get("module_state", {})`
silently defaults to the empty mapping, which is passed to the container's
state-restore. -/
theorem C10_set_state_missing_key {M V : Type}
    (setS : M → List (String × V) → M) (t : StTrainer M) (m : M)
    (hm : t.module? = some m) (state : List (String × List (String × V)))
    (hmiss : dictGet "module_state" state = none) :
    setStateT setS t state = Except.ok { module? := some (setS m []) } := by
  unfold setStateT
  rw [hm, hmiss]
  rfl

/-- Witness for `C10_set_state_missing_key`: restoring from a mapping whose
only key is `"other"` invokes the container restore with the empty
mapping. -/
theorem C10_set_state_missing_key_witness :
    (({ module? := some 7 } : StTrainer Nat).module? = some 7)
    ∧ dictGet "module_state"
        ([("other", [])] : List (String × List (String × Nat))) = none
    ∧ setStateT (fun (m : Nat) (s : List (String × Nat)) => m + s.length)
        ({ module? := some 7 } : StTrainer Nat)
        ([("other", [])] : List (String × List (String × Nat)))
        = Except.ok { module? := some ((fun (m : Nat) (s : List (String × Nat)) =>
            m + s.length) 7 []) } :=
  ⟨rfl, by decide,
    C10_set_state_missing_key
      (fun (m : Nat) (s : List (String × Nat)) => m + s.length)
      ({ module? := some 7 } : StTrainer Nat) 7 rfl
      ([("other", [])] : List (String × List (String × Nat))) (by decide)⟩

/-! ### Claim C6 (build-order enforcement) -/

/-- C6, as stated, is false for `additional_update`: on the unbuilt trainer
it fails, but not with the "trainer not built" precondition signal — its
loop header dereferences the `None` module container first (there is no
build check in lines 325-349), raising an attribute error instead. -/
theorem C6_claim_counterexample :
    additionalUpdateT (fun _ => Except.ok (0 : Nat)) demoUnbuilt
      ≠ Except.error Err.notBuilt :=
  fun h => Err.noConfusion (Except.error.inj h)

/-- C6 (amended): before `build()` has run, `update`, `add_module`,
`remove_module`, `get_state` and `set_state` all fail immediately with the
"trainer not built" precondition signal; `additional_update` also fails
immediately, but with an attribute error from dereferencing the absent
module container rather than the precondition signal, because it performs no
build check. -/
theorem C6_build_order {σ μ β γ φ L G R M V ρ : Type}
    (H : PipeHooks σ μ β γ φ L G R) (distributed : Bool)
    (doDist : β → σ → Except Err R × σ) (b : β) (s : σ)
    (pref : Param → ParamRef) (lt : LifeTrainer) (hlt : lt.moduleC = none)
    (mid : ModuleID) (ps : List Param) (pairs : List (List Param × OptId))
    (getS : M → List (String × V)) (setS : M → List (String × V) → M)
    (st : StTrainer M) (hst : st.module? = none)
    (state : List (String × List (String × V)))
    (perModule : ModuleID → Except Err ρ) :
    (updateModel H none distributed doDist b s).1 = Except.error Err.notBuilt
    ∧ addModuleT pref lt mid ps pairs = Except.error Err.notBuilt
    ∧ removeModuleT pref lt mid = Except.error Err.notBuilt
    ∧ getStateT getS st = Except.error Err.notBuilt
    ∧ setStateT setS st state = Except.error Err.notBuilt
    ∧ additionalUpdateT perModule lt = Except.error Err.attributeError := by
  refine ⟨rfl, ?_, ?_, ?_, ?_, ?_⟩ <;>
    simp [addModuleT, removeModuleT, getStateT, setStateT, additionalUpdateT,
      hlt, hst]

/-- Witness for `C6_build_order` at concrete unbuilt trainers. -/
theorem C6_build_order_witness :
    demoUnbuilt.moduleC = none
    ∧ (({ module? := none } : StTrainer Nat).module? = none)
    ∧ ((updateModel (logHooks (fun b : Nat => b) (fun (_ : Nat) g => g)
          (fun l _ => l) (fun l : Nat => l) (fun g => g)
          (fun _ _ _ g => g)) none false doDistDefault 0 []).1
        = Except.error Err.notBuilt
      ∧ addModuleT prefId demoUnbuilt "B" [2] [([2], 20)]
        = Except.error Err.notBuilt
      ∧ removeModuleT prefId demoUnbuilt "A" = Except.error Err.notBuilt
      ∧ getStateT (fun m : Nat => [("k", m)]) { module? := none }
        = Except.error Err.notBuilt
      ∧ setStateT (fun (m : Nat) (_ : List (String × Nat)) => m)
          { module? := none } [] = Except.error Err.notBuilt
      ∧ additionalUpdateT (fun _ => Except.ok (0 : Nat)) demoUnbuilt
        = Except.error Err.attributeError) :=
  ⟨rfl, rfl,
    C6_build_order (logHooks (fun b : Nat => b) (fun (_ : Nat) g => g)
        (fun l _ => l) (fun l : Nat => l) (fun g => g) (fun _ _ _ g => g))
      false doDistDefault 0 [] prefId demoUnbuilt rfl "B" [2] [([2], 20)]
      (fun m : Nat => [("k", m)]) (fun (m : Nat) (_ : List (String × Nat)) => m)
      { module? := none } rfl [] (fun _ => Except.ok (0 : Nat))⟩

end RLTrainerV
